import Mathlib

/-!
# Verification of the portfolio-aggregation core

A shallow embedding of the `@cygnus-wealth/portfolio-aggregation` TypeScript
library: the asset entity and its merge rules, the reconciliation service, the
portfolio aggregate, the aggregation pipeline, the circuit breaker and the two
rate limiters, together with proofs about them.

JavaScript numbers standing for token amounts and prices are modelled as `ℚ`
(the specification's data model declares them rationals); timestamps
(`Date` values) are modelled as milliseconds (`ℕ`); fallible constructors and
methods (`throw`) are modelled with `Except String`.
-/

namespace PortfolioAgg

/-! ## Shared types (src/shared/types/index.ts) -/

/-- The `Chain` enum. -/
inductive Chain where
  | ethereum | polygon | arbitrum | optimism | solana | binance
  deriving DecidableEq, Repr

/-- The string value of each `Chain` enum member. -/
def Chain.str : Chain → String
  | .ethereum => "ethereum"
  | .polygon  => "polygon"
  | .arbitrum => "arbitrum"
  | .optimism => "optimism"
  | .solana   => "solana"
  | .binance  => "binance"

/-- The `AssetType` enum. -/
inductive AssetType where
  | token | nft | stock | option | crypto | defi
  deriving DecidableEq, Repr

/-- The `AssetType` enum member string values. -/
def AssetType.str : AssetType → String
  | .token  => "token"
  | .nft    => "nft"
  | .stock  => "stock"
  | .option => "option"
  | .crypto => "crypto"
  | .defi   => "defi"

/-- The `IntegrationSource` enum. -/
inductive IntegrationSource where
  | evm | solana | robinhood
  deriving DecidableEq, Repr

/-- The `Price` record. -/
structure Price where
  value : ℚ
  currency : String
  timestamp : ℕ
  source : Option String := none
  deriving DecidableEq, Repr

/-- The `Balance` record. -/
structure Balance where
  amount : ℚ
  decimals : ℕ
  formatted : String
  deriving DecidableEq, Repr

/-- The slice of the free-form `metadata` record the core consults:
the originating source label, the source type used for merge precedence,
the fetch timestamp, and the append-only merge provenance list. -/
structure Metadata where
  source : Option String := none
  sourceType : Option String := none
  fetchedAt : Option ℕ := none
  mergedFrom : List String := []
  deriving DecidableEq, Repr

/-! ## JavaScript helpers

Optional strings take part in truthiness tests (`if (s) ...`, `a || b`):
`undefined` and the empty string are falsy. -/

/-- JS `String.prototype.toLowerCase`: character-wise lower-casing. (Stated on
the character list so that concrete instances evaluate inside the kernel.) -/
def strToLower (s : String) : String :=
  ⟨s.data.map Char.toLower⟩

/-- JS `String.prototype.toUpperCase`: character-wise upper-casing. -/
def strToUpper (s : String) : String :=
  ⟨s.data.map Char.toUpper⟩

/-- JS truthiness of an optional string. -/
def strTruthy : Option String → Bool
  | none => false
  | some s => s ≠ ""

/-- JS `a || b` on optional strings. -/
def strOr (a b : Option String) : Option String :=
  if strTruthy a then a else b

/-- JS `Number.prototype.toFixed` on a non-negative rational: the numerator of
`q·10^d` rounded half away from zero, printed with `d` fractional digits. -/
def toFixed (q : ℚ) (d : ℕ) : String :=
  let scaled : ℚ := q * (10 : ℚ) ^ d
  let n : ℤ := (scaled.num * 2 + scaled.den) / (2 * (scaled.den : ℤ))
  let digits : List Char := (toString n.natAbs).data
  if d = 0 then ⟨digits⟩
  else
    let padded := if digits.length < d + 1 then
      List.replicate (d + 1 - digits.length) '0' ++ digits else digits
    ⟨padded.take (padded.length - d)⟩ ++ "." ++ ⟨padded.drop (padded.length - d)⟩

/-! ## Asset entity (src/domain/entities/Asset.ts) -/

/-- The fields of an `AssetEntity`. The class constructor upper-cases the
symbol; `AssetEntity.make` below performs that normalization, so a structure
built by `make` always satisfies `symbolUpper`. -/
structure AssetEntity where
  id : String
  symbol : String
  name : Option String := none
  type : AssetType
  chain : Option Chain := none
  balance : Balance
  price : Option Price := none
  contractAddress : Option String := none
  imageUrl : Option String := none
  metadata : Metadata := {}
  deriving DecidableEq, Repr

/-- The `AssetEntity` constructor: stores all parameters, upper-casing the
symbol (`this._symbol = params.symbol.toUpperCase()`). -/
def AssetEntity.make (params : AssetEntity) : AssetEntity :=
  { params with symbol := strToUpper params.symbol }

/-- The class invariant established by the constructor: the stored symbol is
its own upper-casing. Every `AssetEntity` the TypeScript code manipulates was
built by the constructor and satisfies this. -/
def AssetEntity.symbolUpper (a : AssetEntity) : Prop :=
  strToUpper a.symbol = a.symbol

instance (a : AssetEntity) : Decidable a.symbolUpper := by
  unfold AssetEntity.symbolUpper; infer_instance

/-- `AssetEntity.isSameAsset` (Asset.ts lines 100–109): when both sides carry
a (truthy) contract address the contracts are compared *case-sensitively*
together with the chains; otherwise symbol, type and chain are compared. -/
def AssetEntity.isSameAsset (a other : AssetEntity) : Bool :=
  if strTruthy a.contractAddress ∧ strTruthy other.contractAddress then
    a.contractAddress = other.contractAddress ∧ a.chain = other.chain
  else
    a.symbol = other.symbol ∧ a.type = other.type ∧ a.chain = other.chain

/-- `AssetEntity.merge` (Asset.ts lines 111–138). Throws on non-same assets;
sums amounts; keeps the *receiver's* decimals and re-formats; picks the price
with the larger `price.timestamp` (ties to `other`); fills nullable fields
from the receiver first. -/
def AssetEntity.merge (a other : AssetEntity) : Except String AssetEntity :=
  if ¬ a.isSameAsset other then .error "Cannot merge different assets" else
  let mergedBalance : Balance :=
    { amount := a.balance.amount + other.balance.amount
      decimals := a.balance.decimals
      formatted := toFixed (a.balance.amount + other.balance.amount) a.balance.decimals }
  let latestPrice : Option Price :=
    match a.price, other.price with
    | some p, some q => some (if p.timestamp > q.timestamp then p else q)
    | p, q => p.or q
  .ok (AssetEntity.make
    { id := a.id
      symbol := a.symbol
      name := strOr a.name other.name
      type := a.type
      chain := a.chain
      balance := mergedBalance
      price := latestPrice
      contractAddress := strOr a.contractAddress other.contractAddress
      imageUrl := strOr a.imageUrl other.imageUrl
      metadata :=
        { source := a.metadata.source.or other.metadata.source
          sourceType := a.metadata.sourceType.or other.metadata.sourceType
          fetchedAt := a.metadata.fetchedAt.or other.metadata.fetchedAt
          mergedFrom := if a.metadata.mergedFrom = [] then other.metadata.mergedFrom
                        else a.metadata.mergedFrom } })

example : toFixed 4 18 = "4.000000000000000000" := by with_unfolding_all decide
example : toFixed (3/2) 2 = "1.50" := by with_unfolding_all decide
example : toFixed (1/2) 0 = "1" := by with_unfolding_all decide

/-! ## Money value object (src/domain/value-objects/Money.ts) -/

/-- The immutable `Money` value object: amount plus upper-cased currency. -/
structure Money where
  amount : ℚ
  currency : String
  deriving DecidableEq, Repr

/-- The `Money` constructor: rejects negative amounts and currency codes that
are empty or not exactly three characters; stores the currency upper-cased. -/
def Money.make (amount : ℚ) (currency : String) : Except String Money :=
  if amount < 0 then .error "Money amount cannot be negative"
  else if currency = "" ∨ currency.length ≠ 3 then .error "Currency must be a 3-letter code"
  else .ok ⟨amount, strToUpper currency⟩

/-- `Money.add`: rejects mixed currencies, then rebuilds through the
constructor. -/
def Money.add (a other : Money) : Except String Money :=
  if a.currency ≠ other.currency then .error "Cannot add money with different currencies"
  else Money.make (a.amount + other.amount) a.currency

/-- `AssetEntity.getValue`: `null` when there is no price, otherwise a `Money`
of `balance.amount * price.value` in the price's currency (the `Money`
constructor may throw). -/
def AssetEntity.getValue (a : AssetEntity) : Except String (Option Money) :=
  match a.price with
  | none => .ok none
  | some p => (Money.make (a.balance.amount * p.value) p.currency).map some

/-! ## JavaScript `Map` semantics

A `Map` is an insertion-ordered association list; `set` on an existing key
replaces the value in place, otherwise appends. -/

/-- JS `Map.prototype.set`. -/
def mapSet {α : Type} (m : List (String × α)) (k : String) (v : α) : List (String × α) :=
  if m.any (fun kv => kv.1 = k) then
    m.map (fun kv => if kv.1 = k then (k, v) else kv)
  else m ++ [(k, v)]

/-- JS `Map.prototype.get`. -/
def mapGet {α : Type} (m : List (String × α)) (k : String) : Option α :=
  (m.find? (fun kv => kv.1 = k)).map (·.2)

theorem except_ok_bind {ε α β : Type} (a : α) (f : α → Except ε β) :
    (Except.ok (ε := ε) a >>= f) = f a := rfl

/-! ## Asset reconciliation service (src/domain/services/AssetReconciliationService.ts) -/

namespace AssetReconciliationService

/-- `isSameAsset`: same symbol and chain, then: both (truthy) contract
addresses must match case-insensitively; neither means native tokens, same;
exactly one means different. -/
def isSameAsset (asset1 asset2 : AssetEntity) : Bool :=
  if asset1.symbol = asset2.symbol ∧ asset1.chain = asset2.chain then
    if strTruthy asset1.contractAddress ∧ strTruthy asset2.contractAddress then
      (asset1.contractAddress.map strToLower) = (asset2.contractAddress.map strToLower)
    else if ¬ strTruthy asset1.contractAddress ∧ ¬ strTruthy asset2.contractAddress then
      true
    else false
  else false

/-- `sourcePriority` lookup inside `selectPreferredSource`:
`{'on-chain':1, 'blockchain':1, 'dex':2, 'cex':3, 'manual':4}`; an unknown
source type falls through `|| 999`. -/
def sourcePriority (s : String) : ℕ :=
  if s = "on-chain" then 1
  else if s = "blockchain" then 1
  else if s = "dex" then 2
  else if s = "cex" then 3
  else if s = "manual" then 4
  else 999

/-- The key looked up: `asset.metadata?.sourceType || 'manual'`. -/
def sourceTypeKey (a : AssetEntity) : String :=
  match strOr a.metadata.sourceType none with
  | some s => s
  | none => "manual"

/-- `selectPreferredSource`: the asset with the (weakly) smaller source
priority; ties resolve to `asset1`. -/
def selectPreferredSource (asset1 asset2 : AssetEntity) : AssetEntity :=
  if sourcePriority (sourceTypeKey asset1) ≤ sourcePriority (sourceTypeKey asset2)
  then asset1 else asset2

/-- `metadata?.fetchedAt ? new Date(metadata.fetchedAt).getTime() : 0`. -/
def fetchedMs (a : AssetEntity) : ℕ :=
  match a.metadata.fetchedAt with
  | some t => t
  | none => 0

/-- `selectMostRecentPrice`: `undefined` when neither has a price, the single
price when only one has, otherwise the price of the asset with the (weakly)
larger `metadata.fetchedAt` (ties resolve to `asset1`). -/
def selectMostRecentPrice (asset1 asset2 : AssetEntity) : Option Price :=
  match asset1.price, asset2.price with
  | none, none => none
  | none, some p => some p
  | some p, none => some p
  | some p1, some p2 => if fetchedMs asset1 ≥ fetchedMs asset2 then some p1 else some p2

/-- `formatBalance`: `amount.toFixed(decimals)`. -/
def formatBalance (amount : ℚ) (decimals : ℕ) : String :=
  toFixed amount decimals

/-- `generateAssetKey`: `chain||'unknown' : symbol.toUpperCase() :
contract?.toLowerCase()||'native'`. -/
def generateAssetKey (asset : AssetEntity) : String :=
  let chain := match asset.chain with | some c => c.str | none => "unknown"
  let symbol := strToUpper asset.symbol
  let contract := match asset.contractAddress.map strToLower with
    | some lc => if lc = "" then "native" else lc
    | none => "native"
  chain ++ ":" ++ symbol ++ ":" ++ contract

/-- `mergeAssets`: throws on non-same assets; sums the amounts, takes decimals
from the source-priority-preferred asset and re-formats; price by recency;
identity, symbol, type, chain, name, contract, image from the preferred asset;
`mergedFrom` is both provenance lists plus the other side's source label,
null-filtered (`filter(Boolean)` also drops empty strings). -/
def mergeAssets (asset1 asset2 : AssetEntity) : Except String AssetEntity :=
  if ¬ isSameAsset asset1 asset2 then .error "Cannot merge different assets" else
  let preferredAsset := selectPreferredSource asset1 asset2
  let otherAsset := if preferredAsset = asset1 then asset2 else asset1
  let totalBalance : Balance :=
    { amount := asset1.balance.amount + asset2.balance.amount
      decimals := preferredAsset.balance.decimals
      formatted := formatBalance (asset1.balance.amount + asset2.balance.amount)
                     preferredAsset.balance.decimals }
  let price := selectMostRecentPrice asset1 asset2
  .ok (AssetEntity.make
    { id := preferredAsset.id
      symbol := preferredAsset.symbol
      name := preferredAsset.name
      type := preferredAsset.type
      chain := preferredAsset.chain
      balance := totalBalance
      price := price
      contractAddress := preferredAsset.contractAddress
      imageUrl := preferredAsset.imageUrl
      metadata :=
        { preferredAsset.metadata with
          mergedFrom :=
            (preferredAsset.metadata.mergedFrom ++ otherAsset.metadata.mergedFrom ++
              (match otherAsset.metadata.source with | some s => [s] | none => [])).filter
              (fun s => s ≠ "") } })

/-- The loop body of `reconcile`: group by `generateAssetKey` into an
insertion-ordered map, merging collisions. -/
def reconcileLoop : List AssetEntity → List (String × AssetEntity) →
    Except String (List (String × AssetEntity))
  | [], reconciled => .ok reconciled
  | asset :: rest, reconciled =>
    let key := generateAssetKey asset
    match mapGet reconciled key with
    | some existing => do
        let merged ← mergeAssets existing asset
        reconcileLoop rest (mapSet reconciled key merged)
    | none => reconcileLoop rest (mapSet reconciled key asset)

/-- `reconcile`: fold the assets through the map, return the map's values. -/
def reconcile (assets : List AssetEntity) : Except String (List AssetEntity) :=
  (reconcileLoop assets []).map (fun m => m.map (·.2))

end AssetReconciliationService

/-! ## Portfolio aggregate (src/domain/aggregates/Portfolio.ts) -/

/-- The `PortfolioAggregate` state: id, optional user id, the internal asset
map (insertion-ordered, JS `Map` semantics), the contributing sources (a JS
`Set`, insertion-ordered), and the last-updated timestamp (ms). -/
structure Portfolio where
  id : String
  userId : Option String := none
  assets : List (String × AssetEntity) := []
  sources : List IntegrationSource := []
  lastUpdated : ℕ
  deriving DecidableEq, Repr

namespace Portfolio

/-- `findSimilarAsset`: the first value in the map satisfying
`existing.isSameAsset(asset)`. -/
def findSimilarAsset (p : Portfolio) (asset : AssetEntity) : Option AssetEntity :=
  ((p.assets.map (·.2)).find? (fun existing => existing.isSameAsset asset))

/-- `addAsset`: merge into the first similar asset (stored back under the
merged asset's id, which is the existing asset's id), else insert under the
asset's own id; refresh `lastUpdated`. The merge throw is unreachable because
`findSimilarAsset` guarantees the guard, but it is modelled faithfully. -/
def addAsset (p : Portfolio) (asset : AssetEntity) (now : ℕ) : Except String Portfolio :=
  match p.findSimilarAsset asset with
  | some existingAsset => do
      let merged ← existingAsset.merge asset
      .ok { p with assets := mapSet p.assets merged.id merged, lastUpdated := now }
  | none =>
      .ok { p with assets := mapSet p.assets asset.id asset, lastUpdated := now }

/-- `addSource`: `Set.add`. -/
def addSource (p : Portfolio) (source : IntegrationSource) (now : ℕ) : Portfolio :=
  { p with
    sources := if source ∈ p.sources then p.sources else p.sources ++ [source]
    lastUpdated := now }

/-- `getAssetKey` (the aggregate's key, distinct from the reconciliation
service's): `chain:contract` when both a truthy contract address and a chain
are present, else `chain||'global' : symbol : type`. -/
def getAssetKey (asset : AssetEntity) : String :=
  if strTruthy asset.contractAddress ∧ asset.chain.isSome then
    (match asset.chain with | some c => c.str | none => "") ++ ":" ++
      (asset.contractAddress.getD "")
  else
    (match asset.chain with | some c => c.str | none => "global") ++ ":" ++
      asset.symbol ++ ":" ++ asset.type.str

/-- The loop body of `PortfolioAggregate.reconcile`: rebuild the map keyed by
`getAssetKey`, merging collisions with `AssetEntity.merge`. -/
def reconcileLoop : List AssetEntity → List (String × AssetEntity) →
    Except String (List (String × AssetEntity))
  | [], reconciledAssets => .ok reconciledAssets
  | asset :: rest, reconciledAssets =>
    let key := getAssetKey asset
    match mapGet reconciledAssets key with
    | some existing => do
        let merged ← existing.merge asset
        reconcileLoop rest (mapSet reconciledAssets key merged)
    | none => reconcileLoop rest (mapSet reconciledAssets key asset)

/-- `reconcile` on the asset map: iterate the current values into a fresh map. -/
def reconcileMap (assets : List (String × AssetEntity)) :
    Except String (List (String × AssetEntity)) :=
  reconcileLoop (assets.map (·.2)) []

/-- `PortfolioAggregate.reconcile()`: replace the asset map, refresh
`lastUpdated`. -/
def reconcile (p : Portfolio) (now : ℕ) : Except String Portfolio := do
  let reconciledAssets ← reconcileMap p.assets
  .ok { p with assets := reconciledAssets, lastUpdated := now }

/-- The loop of `getTotalValue`: for each asset take its value and add it to
the running total when its currency strictly equals the requested `currency`
argument. -/
def getTotalValueLoop (currency : String) :
    List AssetEntity → Money → Except String Money
  | [], total => .ok total
  | asset :: rest, total => do
      let value ← asset.getValue
      match value with
      | some v =>
          if v.currency = currency then do
            let total' ← total.add v
            getTotalValueLoop currency rest total'
          else getTotalValueLoop currency rest total
      | none => getTotalValueLoop currency rest total

/-- `getTotalValue(currency = 'USD')`: start from `Money(0, currency)` and run
the accumulation loop over the asset map's values. -/
def getTotalValue (p : Portfolio) (currency : String) : Except String Money := do
  let init ← Money.make 0 currency
  getTotalValueLoop currency (p.assets.map (·.2)) init

end Portfolio

/-! ## Aggregation service
(src/application/services/PortfolioAggregationService.ts)

The ports (integration repositories, portfolio repository, asset valuator) are
external collaborators; an `AggEnv` packages their observable behaviour for one
call. The per-call `fetchAssets` invocations are returned as a trace, and the
list of domain events published by the service is returned alongside (the
service publishes none: it holds no event emitter). -/

/-- Observable behaviour of one `IIntegrationRepository`. -/
structure Integration where
  connected : Bool
  connectResult : Except String Unit
  fetchAssets : List String → Except String (List AssetEntity)

/-- Observable behaviour of the injected ports during one call. -/
structure AggEnv where
  integrations : List (IntegrationSource × Integration)
  findById : String → Option Portfolio
  getBatchPrices : List String → Except String (List (String × Price))

/-- `AggregationOptions`. -/
structure AggregationOptions where
  sources : Option (List IntegrationSource) := none
  addresses : List (String × List String)
  userId : Option String := none
  forceRefresh : Bool := false

/-- The outcome of `aggregatePortfolio`: the returned portfolio, the
`fetchAssets` calls issued to providers, and the domain events published. -/
structure AggOutcome where
  portfolio : Portfolio
  fetchCalls : List (IntegrationSource × List String)
  events : List String
  deriving DecidableEq, Repr

namespace PortfolioAggregationService

/-- JS `[...new Set(xs)]`: deduplicate keeping first occurrences. -/
def jsSetDedup (l : List String) : List String :=
  l.foldl (fun acc s => if s ∈ acc then acc else acc ++ [s]) []

/-- `getRelevantAddresses`: EVM collects the EVM-compatible chain lists,
Solana reads the `solana` entry, Robinhood uses the sentinel `"default"`;
duplicates removed. -/
def getRelevantAddresses (source : IntegrationSource)
    (addresses : List (String × List String)) : List String :=
  let result : List String :=
    match source with
    | .evm =>
        (addresses.filter (fun kv =>
          kv.1 ∈ ["ethereum", "polygon", "arbitrum", "optimism", "binance"])).foldl
          (fun acc kv => acc ++ kv.2) []
    | .solana => (mapGet addresses "solana").getD []
    | .robinhood => ["default"]
  jsSetDedup result

/-- `fetchFromSource`: look the integration up, connect if needed, compute the
relevant addresses, return `[]` without fetching when they are empty, else
fetch and convert each raw record through the `AssetEntity` constructor.
The second component is the trace of `fetchAssets` calls. -/
def fetchFromSource (env : AggEnv) (source : IntegrationSource)
    (addresses : List (String × List String)) :
    Except String (List AssetEntity) × List (IntegrationSource × List String) :=
  match env.integrations.find? (fun kv => kv.1 = source) with
  | none => (.error "Integration not found", [])
  | some (_, integration) =>
    match (if integration.connected then .ok () else integration.connectResult) with
    | .error e => (.error e, [])
    | .ok () =>
      let relevantAddresses := getRelevantAddresses source addresses
      if relevantAddresses = [] then (.ok [], [])
      else
        match integration.fetchAssets relevantAddresses with
        | .error e => (.error e, [(source, relevantAddresses)])
        | .ok assets => (.ok (assets.map AssetEntity.make), [(source, relevantAddresses)])

/-- `isCacheValid`: age strictly below the five-minute cache timeout. -/
def isCacheValid (now : ℕ) (portfolio : Portfolio) : Bool :=
  ((now : ℤ) - (portfolio.lastUpdated : ℤ)) < 5 * 60 * 1000

/-- `generatePortfolioId`. -/
def generatePortfolioId (userId : Option String) (now : ℕ) : String :=
  match userId with
  | some u => "portfolio_" ++ u
  | none => "portfolio_" ++ toString now

/-- `enrichWithPrices`: batch-fetch prices for the distinct symbols and update
matching assets; a valuator failure is caught and leaves the portfolio as is. -/
def enrichWithPrices (env : AggEnv) (p : Portfolio) : Portfolio :=
  let symbols := jsSetDedup ((p.assets.map (·.2)).map (·.symbol))
  if symbols = [] then p
  else
    match env.getBatchPrices symbols with
    | .error _ => p
    | .ok prices =>
      { p with assets := p.assets.map (fun kv =>
          match mapGet prices kv.2.symbol with
          | some price => (kv.1, { kv.2 with price := some price })
          | none => kv) }

/-- `aggregatePortfolio`: cache short-circuit, fan-out to the selected sources
(each failure caught per source), serial reduction into the portfolio,
reconciliation, price enrichment, save (an external port, modelled as
succeeding). No domain event is published anywhere on this path. -/
def aggregatePortfolio (env : AggEnv) (options : AggregationOptions) (now : ℕ) :
    Except String AggOutcome :=
  let portfolioId := generatePortfolioId options.userId now
  let cachedHit : Option Portfolio :=
    if ¬ options.forceRefresh then
      match env.findById portfolioId with
      | some cached => if isCacheValid now cached then some cached else none
      | none => none
    else none
  match cachedHit with
  | some cached => .ok ⟨cached, [], []⟩
  | none => do
    let portfolio : Portfolio :=
      { id := portfolioId, userId := options.userId, lastUpdated := now }
    let sourcesToFetch := options.sources.getD (env.integrations.map (·.1))
    let results := sourcesToFetch.map
      (fun s => (s, fetchFromSource env s options.addresses))
    let fetchCalls := (results.map (fun r => r.2.2)).flatten
    let portfolio ← results.foldlM
      (fun p r =>
        match r.2.1 with
        | .ok assets => assets.foldlM (fun q a => q.addAsset a now) (p.addSource r.1 now)
        | .error _ => .ok p)
      portfolio
    let portfolio ← portfolio.reconcile now
    let portfolio := enrichWithPrices env portfolio
    .ok ⟨portfolio, fetchCalls, []⟩

/-- `extractAddresses`: collect the chain keys of the portfolio's assets; each
chain is mapped to `addresses.get(chain) || []` and nothing is ever pushed, so
every list stays empty. -/
def extractAddresses (portfolio : Portfolio) : List (String × List String) :=
  (portfolio.assets.map (·.2)).foldl
    (fun addresses asset =>
      match asset.chain with
      | some chain => mapSet addresses chain.str ((mapGet addresses chain.str).getD [])
      | none => addresses)
    []

/-- `refreshPortfolio`: load, extract the (empty) address lists, re-aggregate
with `forceRefresh`. -/
def refreshPortfolio (env : AggEnv) (portfolioId : String) (now : ℕ) :
    Except String AggOutcome :=
  match env.findById portfolioId with
  | none => .error ("Portfolio not found: " ++ portfolioId)
  | some existing =>
    aggregatePortfolio env
      { sources := some existing.sources
        addresses := extractAddresses existing
        userId := existing.userId
        forceRefresh := true } now

end PortfolioAggregationService

/-! ## Circuit breaker (src/infrastructure/patterns/CircuitBreaker.ts) -/

/-- The `CircuitState` enum. -/
inductive CircuitState where
  | closed | «open» | halfOpen
  deriving DecidableEq, Repr

/-- `CircuitBreakerConfig`. -/
structure CircuitBreakerConfig where
  failureThreshold : ℕ
  recoveryTimeout : ℕ
  halfOpenRetries : ℕ
  deriving DecidableEq, Repr

/-- The mutable fields of a `CircuitBreaker`. -/
structure CircuitBreaker where
  state : CircuitState := .closed
  failures : ℕ := 0
  successes : ℕ := 0
  lastFailureTime : Option ℕ := none
  lastSuccessTime : Option ℕ := none
  nextRetryTime : Option ℕ := none
  halfOpenAttempts : ℕ := 0
  deriving DecidableEq, Repr

namespace CircuitBreaker

/-- `getState()`: transitions an Open breaker whose `nextRetryTime` has been
reached to HalfOpen with zero half-open attempts, and reports the state. -/
def getState (now : ℕ) (b : CircuitBreaker) : CircuitState × CircuitBreaker :=
  match b.state, b.nextRetryTime with
  | .«open», some t =>
      if now ≥ t then (.halfOpen, { b with state := .halfOpen, halfOpenAttempts := 0 })
      else (.«open», b)
  | s, _ => (s, b)

/-- `recordSuccess()`. -/
def recordSuccess (cfg : CircuitBreakerConfig) (now : ℕ) (b : CircuitBreaker) :
    CircuitBreaker :=
  let b := { b with successes := b.successes + 1, lastSuccessTime := some now }
  match b.state with
  | .halfOpen =>
      let b := { b with halfOpenAttempts := b.halfOpenAttempts + 1 }
      if b.halfOpenAttempts ≥ cfg.halfOpenRetries then
        { b with state := .closed, failures := 0, halfOpenAttempts := 0 }
      else b
  | .closed => { b with failures := 0 }
  | .«open» => b

/-- `recordFailure()`. -/
def recordFailure (cfg : CircuitBreakerConfig) (now : ℕ) (b : CircuitBreaker) :
    CircuitBreaker :=
  let b := { b with failures := b.failures + 1, lastFailureTime := some now }
  match b.state with
  | .closed =>
      if b.failures ≥ cfg.failureThreshold then
        { b with state := .«open», nextRetryTime := some (now + cfg.recoveryTimeout) }
      else b
  | .halfOpen =>
      { b with state := .«open», nextRetryTime := some (now + cfg.recoveryTimeout),
               halfOpenAttempts := 0 }
  | .«open» => b

/-- `allowRequest()`: inspect (and possibly transition) the state, then admit
in Closed, admit up to `halfOpenRetries` probes in HalfOpen, refuse in Open. -/
def allowRequest (cfg : CircuitBreakerConfig) (now : ℕ) (b : CircuitBreaker) :
    Bool × CircuitBreaker :=
  let (currentState, b) := getState now b
  match currentState with
  | .closed => (true, b)
  | .halfOpen => (b.halfOpenAttempts < cfg.halfOpenRetries, b)
  | .«open» => (false, b)

end CircuitBreaker

/-! ## Rate limiters (src/infrastructure/patterns/RateLimiter.ts) -/

/-- `RateLimitConfig`. -/
structure RateLimitConfig where
  requestsPerMinute : ℕ
  burstLimit : Option ℕ := none
  deriving DecidableEq, Repr

/-- `config.burstLimit || config.requestsPerMinute` (`0` is falsy in JS). -/
def RateLimitConfig.maxTokens (cfg : RateLimitConfig) : ℕ :=
  match cfg.burstLimit with
  | some b => if b = 0 then cfg.requestsPerMinute else b
  | none => cfg.requestsPerMinute

namespace TokenBucket

/-- Mutable state of a `TokenBucketRateLimiter`. -/
structure State where
  tokens : ℕ
  lastRefillTime : ℕ
  deriving DecidableEq, Repr

/-- Constructor: a full bucket. -/
def init (cfg : RateLimitConfig) (now : ℕ) : State :=
  ⟨cfg.maxTokens, now⟩

/-- `refillTokens()`: add `floor(elapsedMinutes * requestsPerMinute)` tokens
capped at the bucket size, moving `lastRefillTime` only when at least one
token is added. (A non-positive elapsed time adds nothing, like in JS;
`ℕ`-subtraction truncates that case to zero.) -/
def refillTokens (cfg : RateLimitConfig) (now : ℕ) (st : State) : State :=
  let elapsedMs := now - st.lastRefillTime
  let tokensToAdd := elapsedMs * cfg.requestsPerMinute / 60000
  if tokensToAdd > 0 then
    ⟨min (st.tokens + tokensToAdd) cfg.maxTokens, now⟩
  else st

/-- `allowRequest()`: refill, then consume one token if any is left. -/
def allowRequest (cfg : RateLimitConfig) (now : ℕ) (st : State) : Bool × State :=
  let st := refillTokens cfg now st
  if st.tokens > 0 then (true, { st with tokens := st.tokens - 1 })
  else (false, st)

end TokenBucket

namespace SlidingWindow

/-- `cleanOldRequests()`: keep the timestamps strictly within the last
60 000 ms (the JS comparison is on possibly-negative differences, hence `ℤ`). -/
def cleanOldRequests (now : ℕ) (ts : List ℕ) : List ℕ :=
  ts.filter (fun t => (t : ℤ) > (now : ℤ) - 60000)

/-- `allowRequest()`: clean, then admit (recording `now`) iff strictly fewer
than `burstLimit || requestsPerMinute` timestamps remain in the window. -/
def allowRequest (cfg : RateLimitConfig) (now : ℕ) (ts : List ℕ) :
    Bool × List ℕ :=
  let ts := cleanOldRequests now ts
  if ts.length < cfg.maxTokens then (true, ts ++ [now]) else (false, ts)

end SlidingWindow

/-- Run a sequence of `allowRequest` calls against a rate limiter with state
type `σ` and step function `step`, returning each call's time and admission
outcome together with the final state. -/
def runLimiter {σ : Type} (step : ℕ → σ → Bool × σ) : σ → List ℕ →
    List (ℕ × Bool) × σ
  | st, [] => ([], st)
  | st, t :: ts =>
    let (adm, st') := step t st
    let (trace, stFin) := runLimiter step st' ts
    ((t, adm) :: trace, stFin)

/-- The number of admissions in an admission trace whose times fall in the
contiguous 60-second window `[s, s + 60000)`. -/
def admittedInWindow (trace : List (ℕ × Bool)) (s : ℕ) : ℕ :=
  (trace.filter (fun p => p.2 ∧ s ≤ p.1 ∧ p.1 < s + 60000)).length

/-! ## Claim C7: rate-limiter window bounds -/

theorem runLimiter_nil {σ : Type} (step : ℕ → σ → Bool × σ) (st : σ) :
    runLimiter step st [] = ([], st) := rfl

theorem runLimiter_cons {σ : Type} (step : ℕ → σ → Bool × σ) (st : σ)
    (t : ℕ) (ts : List ℕ) :
    runLimiter step st (t :: ts) =
      ((t, (step t st).1) :: (runLimiter step (step t st).2 ts).1,
        (runLimiter step (step t st).2 ts).2) := rfl

theorem runLimiter_append {σ : Type} (step : ℕ → σ → Bool × σ) :
    ∀ (l₁ l₂ : List ℕ) (st : σ),
      runLimiter step st (l₁ ++ l₂) =
        ((runLimiter step st l₁).1 ++
            (runLimiter step (runLimiter step st l₁).2 l₂).1,
          (runLimiter step (runLimiter step st l₁).2 l₂).2) := by
  intro l₁
  induction l₁ with
  | nil => intro l₂ st; rfl
  | cons t ts ih =>
    intro l₂ st
    simp only [List.cons_append, runLimiter_cons, ih]

theorem runLimiter_times {σ : Type} (step : ℕ → σ → Bool × σ) :
    ∀ (l : List ℕ) (st : σ), ((runLimiter step st l).1).map (·.1) = l := by
  intro l
  induction l with
  | nil => intro st; rfl
  | cons t ts ih =>
    intro st
    simp only [runLimiter_cons, List.map_cons, ih]

theorem admittedInWindow_nil (s : ℕ) : admittedInWindow [] s = 0 := rfl

theorem admittedInWindow_append (t₁ t₂ : List (ℕ × Bool)) (s : ℕ) :
    admittedInWindow (t₁ ++ t₂) s = admittedInWindow t₁ s + admittedInWindow t₂ s := by
  unfold admittedInWindow
  rw [List.filter_append, List.length_append]

theorem admittedInWindow_zero (tr : List (ℕ × Bool)) (s : ℕ)
    (h : ∀ p ∈ tr, ¬ (s ≤ p.1 ∧ p.1 < s + 60000)) :
    admittedInWindow tr s = 0 := by
  unfold admittedInWindow
  rw [List.length_eq_zero, List.filter_eq_nil_iff]
  intro p hp
  simp only [Bool.not_eq_true, decide_eq_false_iff_not]
  intro hc
  exact h p hp ⟨hc.2.1, hc.2.2⟩

theorem admittedInWindow_cons (t : ℕ) (adm : Bool) (tr : List (ℕ × Bool)) (s : ℕ) :
    admittedInWindow ((t, adm) :: tr) s =
      (if adm ∧ s ≤ t ∧ t < s + 60000 then 1 else 0) + admittedInWindow tr s := by
  unfold admittedInWindow
  rw [List.filter_cons]
  split_ifs with h1 h2 h2 <;> simp_all
  omega

/-- Elements surviving `dropWhile (· < c)` in a sorted list are all `≥ c`. -/
theorem dropWhile_ge (c : ℕ) :
    ∀ (l : List ℕ), List.Pairwise (· ≤ ·) l →
      ∀ x ∈ l.dropWhile (fun t => t < c), ¬ x < c := by
  intro l
  induction l with
  | nil => simp
  | cons a l' ih =>
    intro hp x hx
    rw [List.dropWhile_cons] at hx
    rcases List.pairwise_cons.mp hp with ⟨hhead, htail⟩
    by_cases ha : a < c
    · rw [if_pos (by simpa using ha)] at hx
      exact ih htail x hx
    · rw [if_neg (by simpa using ha)] at hx
      rcases List.mem_cons.mp hx with hxa | hxl
      · rw [hxa]; exact ha
      · have := hhead x hxl
        omega

/-! ### Sliding window: the `max(R, B)` bound holds -/

/-- Invariant of the sliding-window run relative to a window start `s`: the
stored timestamp list never exceeds the limit, and every admission counted in
the window so far is still stored at a timestamp `≥ s`. -/
def SWInv (cfg : RateLimitConfig) (s : ℕ) (st : List ℕ) (A : ℕ) : Prop :=
  st.length ≤ cfg.maxTokens ∧ A ≤ (st.filter (fun x => s ≤ x)).length

theorem sw_clean_filter (s t : ℕ) (st : List ℕ)
    (ht : t < s + 60000) :
    ((SlidingWindow.cleanOldRequests t st).filter (fun x => s ≤ x)) =
      st.filter (fun x => s ≤ x) := by
  unfold SlidingWindow.cleanOldRequests
  rw [List.filter_filter]
  apply List.filter_congr
  intro x _
  by_cases hx : s ≤ x
  · have hgt : ((x : ℤ) > (t : ℤ) - 60000) := by omega
    simp [hx, hgt]
  · simp [hx]

theorem sw_step (cfg : RateLimitConfig) (s t : ℕ) (st : List ℕ) (A : ℕ)
    (ht : t < s + 60000) (hinv : SWInv cfg s st A) :
    SWInv cfg s (SlidingWindow.allowRequest cfg t st).2
      (A + (if (SlidingWindow.allowRequest cfg t st).1 ∧ s ≤ t then 1 else 0)) := by
  obtain ⟨hlen, hA⟩ := hinv
  have hclean := sw_clean_filter s t st ht
  have hcleanlen : (SlidingWindow.cleanOldRequests t st).length ≤ st.length :=
    List.length_filter_le _ _
  simp only [SlidingWindow.allowRequest]
  by_cases hadm : (SlidingWindow.cleanOldRequests t st).length < cfg.maxTokens
  · simp only [if_pos hadm]
    refine ⟨?_, ?_⟩
    · simp only [List.length_append, List.length_singleton]
      omega
    · by_cases hst : s ≤ t
      · rw [if_pos ⟨trivial, hst⟩, List.filter_append]
        simp only [List.length_append]
        rw [hclean]
        have h1 : (([t] : List ℕ).filter (fun x => s ≤ x)).length = 1 := by simp [hst]
        omega
      · rw [if_neg (fun h => hst h.2), List.filter_append]
        simp only [List.length_append]
        rw [hclean]
        omega
  · simp only [if_neg hadm]
    refine ⟨by omega, ?_⟩
    rw [if_neg (fun h => Bool.noConfusion h.1), hclean]
    omega

theorem sw_len_step (cfg : RateLimitConfig) (t : ℕ) (st : List ℕ)
    (h : st.length ≤ cfg.maxTokens) :
    ((SlidingWindow.allowRequest cfg t st).2).length ≤ cfg.maxTokens := by
  have hcl : (SlidingWindow.cleanOldRequests t st).length ≤ st.length :=
    List.length_filter_le _ _
  simp only [SlidingWindow.allowRequest]
  by_cases hadm : (SlidingWindow.cleanOldRequests t st).length < cfg.maxTokens
  · simp only [if_pos hadm, List.length_append, List.length_singleton]
    omega
  · simp only [if_neg hadm]
    omega

theorem sw_run_len (cfg : RateLimitConfig) :
    ∀ (ts : List ℕ) (st : List ℕ), st.length ≤ cfg.maxTokens →
      ((runLimiter (SlidingWindow.allowRequest cfg) st ts).2).length ≤ cfg.maxTokens := by
  intro ts
  induction ts with
  | nil => intro st h; exact h
  | cons t ts ih =>
    intro st h
    rw [runLimiter_cons]
    exact ih _ (sw_len_step cfg t st h)

theorem sw_aux (cfg : RateLimitConfig) (s : ℕ) :
    ∀ (ts : List ℕ) (st : List ℕ) (A : ℕ),
      (∀ t ∈ ts, t < s + 60000) → SWInv cfg s st A →
      SWInv cfg s (runLimiter (SlidingWindow.allowRequest cfg) st ts).2
        (A + admittedInWindow (runLimiter (SlidingWindow.allowRequest cfg) st ts).1 s) := by
  intro ts
  induction ts with
  | nil =>
    intro st A hlt hinv
    simpa [runLimiter_nil, admittedInWindow_nil] using hinv
  | cons t ts ih =>
    intro st A hlt hinv
    have ht : t < s + 60000 := hlt t (List.mem_cons_self t ts)
    rw [runLimiter_cons]
    dsimp only
    rw [admittedInWindow_cons]
    have hcond : ((SlidingWindow.allowRequest cfg t st).1 = true ∧ s ≤ t ∧ t < s + 60000) ↔
        ((SlidingWindow.allowRequest cfg t st).1 = true ∧ s ≤ t) := by
      constructor
      · rintro ⟨h1, h2, _⟩; exact ⟨h1, h2⟩
      · rintro ⟨h1, h2⟩; exact ⟨h1, h2, ht⟩
    rw [if_congr hcond rfl rfl, ← Nat.add_assoc]
    exact ih _ _ (fun x hx => hlt x (List.mem_cons_of_mem _ hx)) (sw_step cfg s t st A ht hinv)

/-! ### Splitting a sorted call sequence around a window -/

theorem mid_mem (s : ℕ) (times : List ℕ) (hsorted : List.Pairwise (· ≤ ·) times) :
    ∀ t ∈ (times.dropWhile (fun t => t < s)).takeWhile (fun t => t < s + 60000),
      s ≤ t ∧ t < s + 60000 := by
  intro t ht
  have h2 : t < s + 60000 := by simpa using List.mem_takeWhile_imp ht
  have h1 : t ∈ times.dropWhile (fun t => t < s) :=
    (List.takeWhile_sublist _).subset ht
  have h3 := dropWhile_ge s times hsorted t h1
  exact ⟨by omega, h2⟩

theorem aW_zero_of_pre {σ : Type} (step : ℕ → σ → Bool × σ) (st : σ) (l : List ℕ)
    (s : ℕ) (h : ∀ x ∈ l, x < s) :
    admittedInWindow (runLimiter step st l).1 s = 0 := by
  apply admittedInWindow_zero
  intro p hp
  have hmem : p.1 ∈ l := by
    rw [← runLimiter_times step l st]
    exact List.mem_map_of_mem _ hp
  have := h p.1 hmem
  omega

theorem aW_zero_of_post {σ : Type} (step : ℕ → σ → Bool × σ) (st : σ) (l : List ℕ)
    (s : ℕ) (h : ∀ x ∈ l, ¬ x < s + 60000) :
    admittedInWindow (runLimiter step st l).1 s = 0 := by
  apply admittedInWindow_zero
  intro p hp
  have hmem : p.1 ∈ l := by
    rw [← runLimiter_times step l st]
    exact List.mem_map_of_mem _ hp
  have := h p.1 hmem
  omega

/-- Only the calls made at times inside `[s, s + 60000)` can contribute to the
window count: the run over a sorted call sequence restricts to the run over its
middle segment, started from the state the earlier calls left behind. -/
theorem run_window_split {σ : Type} (step : ℕ → σ → Bool × σ) (s : ℕ)
    (times : List ℕ) (hsorted : List.Pairwise (· ≤ ·) times) (st₀ : σ) :
    admittedInWindow (runLimiter step st₀ times).1 s =
      admittedInWindow
        (runLimiter step
          (runLimiter step st₀ (times.takeWhile (fun t => t < s))).2
          ((times.dropWhile (fun t => t < s)).takeWhile (fun t => t < s + 60000))).1 s := by
  have hrest : List.Pairwise (· ≤ ·) (times.dropWhile (fun t => t < s)) :=
    hsorted.sublist (List.dropWhile_sublist _)
  have htimes : times =
      times.takeWhile (fun t => t < s) ++
        ((times.dropWhile (fun t => t < s)).takeWhile (fun t => t < s + 60000) ++
          (times.dropWhile (fun t => t < s)).dropWhile (fun t => t < s + 60000)) := by
    rw [List.takeWhile_append_dropWhile, List.takeWhile_append_dropWhile]
  conv_lhs => rw [htimes]
  simp only [runLimiter_append, admittedInWindow_append]
  rw [aW_zero_of_pre step st₀ (times.takeWhile (fun t => t < s)) s
      (fun x hx => by simpa using List.mem_takeWhile_imp hx),
    aW_zero_of_post step _ _ s
      (dropWhile_ge (s + 60000) (times.dropWhile (fun t => t < s)) hrest)]
  omega

/-- The sliding-window limiter admits at most `burstLimit || requestsPerMinute`
calls inside any contiguous 60-second window. -/
theorem sw_window_bound (cfg : RateLimitConfig) (s : ℕ) (times : List ℕ)
    (hsorted : List.Pairwise (· ≤ ·) times) :
    admittedInWindow (runLimiter (SlidingWindow.allowRequest cfg) [] times).1 s ≤
      cfg.maxTokens := by
  rw [run_window_split (SlidingWindow.allowRequest cfg) s times hsorted []]
  have hlen : ((runLimiter (SlidingWindow.allowRequest cfg) []
      (times.takeWhile (fun t => t < s))).2).length ≤ cfg.maxTokens :=
    sw_run_len cfg _ [] (Nat.zero_le _)
  obtain ⟨h1, h2⟩ := sw_aux cfg s
    ((times.dropWhile (fun t => t < s)).takeWhile (fun t => t < s + 60000))
    ((runLimiter (SlidingWindow.allowRequest cfg) [] (times.takeWhile (fun t => t < s))).2)
    0 (fun t htm => (mid_mem s times hsorted t htm).2) ⟨hlen, Nat.zero_le _⟩
  have h3 := List.length_filter_le (fun x => decide (s ≤ x))
    ((runLimiter (SlidingWindow.allowRequest cfg)
      ((runLimiter (SlidingWindow.allowRequest cfg) [] (times.takeWhile (fun t => t < s))).2)
      ((times.dropWhile (fun t => t < s)).takeWhile (fun t => t < s + 60000))).2)
  omega

/-! ### Token bucket: the bound `maxTokens + requestsPerMinute` -/

theorem div60000_add_le (x y : ℕ) : (x + y) / 60000 ≤ x / 60000 + y / 60000 + 1 := by
  omega

theorem div60000_superadd (x y : ℕ) : x / 60000 + y / 60000 ≤ (x + y) / 60000 := by
  omega

theorem tb_tokens_step (cfg : RateLimitConfig) (t : ℕ) (st : TokenBucket.State)
    (h : st.tokens ≤ cfg.maxTokens) :
    ((TokenBucket.allowRequest cfg t st).2).tokens ≤ cfg.maxTokens := by
  obtain ⟨tok, L⟩ := st
  have htok : tok ≤ cfg.maxTokens := h
  by_cases hadd : (t - L) * cfg.requestsPerMinute / 60000 > 0
  · have hrefill : TokenBucket.refillTokens cfg t ⟨tok, L⟩ =
        ⟨min (tok + (t - L) * cfg.requestsPerMinute / 60000) cfg.maxTokens, t⟩ := by
      simp only [TokenBucket.refillTokens]
      rw [if_pos hadd]
    simp only [TokenBucket.allowRequest, hrefill]
    by_cases h1 : min (tok + (t - L) * cfg.requestsPerMinute / 60000) cfg.maxTokens > 0
    · rw [if_pos h1]
      show min (tok + (t - L) * cfg.requestsPerMinute / 60000) cfg.maxTokens - 1 ≤
        cfg.maxTokens
      omega
    · rw [if_neg h1]
      show min (tok + (t - L) * cfg.requestsPerMinute / 60000) cfg.maxTokens ≤ cfg.maxTokens
      omega
  · have hrefill : TokenBucket.refillTokens cfg t ⟨tok, L⟩ = ⟨tok, L⟩ := by
      simp only [TokenBucket.refillTokens]
      rw [if_neg hadd]
    simp only [TokenBucket.allowRequest, hrefill]
    by_cases h1 : tok > 0
    · rw [if_pos h1]
      show tok - 1 ≤ cfg.maxTokens
      omega
    · rw [if_neg h1]
      exact htok

theorem tb_run_tokens (cfg : RateLimitConfig) :
    ∀ (ts : List ℕ) (st : TokenBucket.State), st.tokens ≤ cfg.maxTokens →
      ((runLimiter (TokenBucket.allowRequest cfg) st ts).2).tokens ≤ cfg.maxTokens := by
  intro ts
  induction ts with
  | nil => intro st h; exact h
  | cons t ts ih =>
    intro st h
    rw [runLimiter_cons]
    exact ih _ (tb_tokens_step cfg t st h)

/-- Invariant of the token-bucket run relative to a window start `s`, holding
between the calls of the middle segment (all made at times in
`[s, s + 60000)`): either nothing has been admitted in the window yet, or no
refill has moved `lastRefillTime` into the window (and then admissions simply
spend the initial tokens), or `lastRefillTime` lies in the window and the
admissions plus the remaining tokens are bounded by the bucket size plus what
the in-window refills can have added. -/
def TBInv (cfg : RateLimitConfig) (s : ℕ) (st : TokenBucket.State) (A : ℕ) : Prop :=
  st.tokens ≤ cfg.maxTokens ∧
    (A = 0 ∨
      (A + st.tokens ≤ cfg.maxTokens ∧
        (s - st.lastRefillTime) * cfg.requestsPerMinute < 60000) ∨
      (s ≤ st.lastRefillTime ∧ st.lastRefillTime < s + 60000 ∧
        A + st.tokens ≤ cfg.maxTokens +
          ((st.lastRefillTime - s) * cfg.requestsPerMinute) / 60000 + 1))

theorem tb_step (cfg : RateLimitConfig) (s t : ℕ) (st : TokenBucket.State) (A : ℕ)
    (hs : s ≤ t) (ht : t < s + 60000) (hinv : TBInv cfg s st A) :
    TBInv cfg s (TokenBucket.allowRequest cfg t st).2
      (A + (if (TokenBucket.allowRequest cfg t st).1 then 1 else 0)) := by
  obtain ⟨tok, L⟩ := st
  obtain ⟨htok₀, hd₀⟩ := hinv
  have htok : tok ≤ cfg.maxTokens := htok₀
  have hd : A = 0 ∨
      (A + tok ≤ cfg.maxTokens ∧ (s - L) * cfg.requestsPerMinute < 60000) ∨
      (s ≤ L ∧ L < s + 60000 ∧
        A + tok ≤ cfg.maxTokens + ((L - s) * cfg.requestsPerMinute) / 60000 + 1) := hd₀
  by_cases hadd : (t - L) * cfg.requestsPerMinute / 60000 > 0
  · have hrefill : TokenBucket.refillTokens cfg t ⟨tok, L⟩ =
        ⟨min (tok + (t - L) * cfg.requestsPerMinute / 60000) cfg.maxTokens, t⟩ := by
      simp only [TokenBucket.refillTokens]
      rw [if_pos hadd]
    have hkey : A + min (tok + (t - L) * cfg.requestsPerMinute / 60000) cfg.maxTokens ≤
        cfg.maxTokens + ((t - s) * cfg.requestsPerMinute) / 60000 + 1 := by
      rcases hd with h0 | ⟨h2a, h2b⟩ | ⟨h3a, h3b, h3c⟩
      · omega
      · have e0 : t - L ≤ (t - s) + (s - L) := by omega
        have e1 : (t - L) * cfg.requestsPerMinute ≤
            (t - s) * cfg.requestsPerMinute + (s - L) * cfg.requestsPerMinute := by
          calc (t - L) * cfg.requestsPerMinute ≤
              ((t - s) + (s - L)) * cfg.requestsPerMinute := Nat.mul_le_mul_right _ e0
            _ = (t - s) * cfg.requestsPerMinute + (s - L) * cfg.requestsPerMinute :=
              Nat.add_mul _ _ _
        have e3 : (t - L) * cfg.requestsPerMinute / 60000 ≤
            ((t - s) * cfg.requestsPerMinute + (s - L) * cfg.requestsPerMinute) / 60000 :=
          Nat.div_le_div_right e1
        have e2 := div60000_add_le ((t - s) * cfg.requestsPerMinute)
          ((s - L) * cfg.requestsPerMinute)
        omega
      · have hLt : L ≤ t := by
          by_contra hc
          have h0 : t - L = 0 := by omega
          rw [h0] at hadd
          simp at hadd
        have e0 : (L - s) * cfg.requestsPerMinute + (t - L) * cfg.requestsPerMinute =
            (t - s) * cfg.requestsPerMinute := by
          rw [← Nat.add_mul]
          congr 1
          omega
        have e2 := div60000_superadd ((L - s) * cfg.requestsPerMinute)
          ((t - L) * cfg.requestsPerMinute)
        rw [e0] at e2
        omega
    by_cases h1 : min (tok + (t - L) * cfg.requestsPerMinute / 60000) cfg.maxTokens > 0
    · have har : TokenBucket.allowRequest cfg t ⟨tok, L⟩ =
          (true, ⟨min (tok + (t - L) * cfg.requestsPerMinute / 60000) cfg.maxTokens - 1,
            t⟩) := by
        simp only [TokenBucket.allowRequest, hrefill]
        rw [if_pos h1]
      rw [har]
      refine ⟨?_, Or.inr (Or.inr ⟨hs, ht, ?_⟩)⟩
      · show min (tok + (t - L) * cfg.requestsPerMinute / 60000) cfg.maxTokens - 1 ≤
          cfg.maxTokens
        omega
      · show A + 1 +
            (min (tok + (t - L) * cfg.requestsPerMinute / 60000) cfg.maxTokens - 1) ≤
          cfg.maxTokens + ((t - s) * cfg.requestsPerMinute) / 60000 + 1
        omega
    · have har : TokenBucket.allowRequest cfg t ⟨tok, L⟩ =
          (false, ⟨min (tok + (t - L) * cfg.requestsPerMinute / 60000) cfg.maxTokens,
            t⟩) := by
        simp only [TokenBucket.allowRequest, hrefill]
        rw [if_neg h1]
      rw [har]
      refine ⟨?_, Or.inr (Or.inr ⟨hs, ht, ?_⟩)⟩
      · show min (tok + (t - L) * cfg.requestsPerMinute / 60000) cfg.maxTokens ≤
          cfg.maxTokens
        omega
      · show A + 0 + min (tok + (t - L) * cfg.requestsPerMinute / 60000) cfg.maxTokens ≤
          cfg.maxTokens + ((t - s) * cfg.requestsPerMinute) / 60000 + 1
        omega
  · have hrefill : TokenBucket.refillTokens cfg t ⟨tok, L⟩ = ⟨tok, L⟩ := by
      simp only [TokenBucket.refillTokens]
      rw [if_neg hadd]
    have hlt60 : (t - L) * cfg.requestsPerMinute < 60000 := by omega
    have hsl : (s - L) * cfg.requestsPerMinute ≤ (t - L) * cfg.requestsPerMinute :=
      Nat.mul_le_mul_right _ (by omega : s - L ≤ t - L)
    by_cases h1 : tok > 0
    · have har : TokenBucket.allowRequest cfg t ⟨tok, L⟩ = (true, ⟨tok - 1, L⟩) := by
        simp only [TokenBucket.allowRequest, hrefill]
        rw [if_pos h1]
      rw [har]
      rcases hd with h0 | ⟨h2a, h2b⟩ | ⟨h3a, h3b, h3c⟩
      · exact ⟨by show tok - 1 ≤ cfg.maxTokens; omega,
          Or.inr (Or.inl ⟨by show A + 1 + (tok - 1) ≤ cfg.maxTokens; omega,
            by show (s - L) * cfg.requestsPerMinute < 60000; omega⟩)⟩
      · exact ⟨by show tok - 1 ≤ cfg.maxTokens; omega,
          Or.inr (Or.inl ⟨by show A + 1 + (tok - 1) ≤ cfg.maxTokens; omega, h2b⟩)⟩
      · exact ⟨by show tok - 1 ≤ cfg.maxTokens; omega,
          Or.inr (Or.inr ⟨h3a, h3b, by
            show A + 1 + (tok - 1) ≤
              cfg.maxTokens + ((L - s) * cfg.requestsPerMinute) / 60000 + 1
            omega⟩)⟩
    · have har : TokenBucket.allowRequest cfg t ⟨tok, L⟩ = (false, ⟨tok, L⟩) := by
        simp only [TokenBucket.allowRequest, hrefill]
        rw [if_neg h1]
      rw [har]
      rcases hd with h0 | ⟨h2a, h2b⟩ | ⟨h3a, h3b, h3c⟩
      · exact ⟨htok, Or.inl (by show A + 0 = 0; omega)⟩
      · exact ⟨htok, Or.inr (Or.inl ⟨by show A + 0 + tok ≤ cfg.maxTokens; omega, h2b⟩)⟩
      · exact ⟨htok, Or.inr (Or.inr ⟨h3a, h3b, by
          show A + 0 + tok ≤
            cfg.maxTokens + ((L - s) * cfg.requestsPerMinute) / 60000 + 1
          omega⟩)⟩

theorem tb_aux (cfg : RateLimitConfig) (s : ℕ) :
    ∀ (ts : List ℕ) (st : TokenBucket.State) (A : ℕ),
      (∀ t ∈ ts, s ≤ t ∧ t < s + 60000) → TBInv cfg s st A →
      TBInv cfg s (runLimiter (TokenBucket.allowRequest cfg) st ts).2
        (A + admittedInWindow (runLimiter (TokenBucket.allowRequest cfg) st ts).1 s) := by
  intro ts
  induction ts with
  | nil =>
    intro st A hmem hinv
    simpa [runLimiter_nil, admittedInWindow_nil] using hinv
  | cons t ts ih =>
    intro st A hmem hinv
    obtain ⟨hs, ht⟩ := hmem t (List.mem_cons_self t ts)
    rw [runLimiter_cons]
    dsimp only
    rw [admittedInWindow_cons]
    have hcond : ((TokenBucket.allowRequest cfg t st).1 = true ∧ s ≤ t ∧ t < s + 60000) ↔
        ((TokenBucket.allowRequest cfg t st).1 = true) := by
      constructor
      · rintro ⟨h1, _, _⟩; exact h1
      · intro h1; exact ⟨h1, hs, ht⟩
    rw [if_congr hcond rfl rfl, ← Nat.add_assoc]
    exact ih _ _ (fun x hx => hmem x (List.mem_cons_of_mem _ hx))
      (tb_step cfg s t st A hs ht hinv)

/-- The token-bucket limiter admits at most `maxTokens + requestsPerMinute`
calls inside any contiguous 60-second window (for a positive refill rate). -/
theorem tb_window_bound (cfg : RateLimitConfig) (hR : 1 ≤ cfg.requestsPerMinute)
    (s t₀ : ℕ) (times : List ℕ) (hsorted : List.Pairwise (· ≤ ·) times) :
    admittedInWindow (runLimiter (TokenBucket.allowRequest cfg)
      (TokenBucket.init cfg t₀) times).1 s ≤
        cfg.maxTokens + cfg.requestsPerMinute := by
  rw [run_window_split (TokenBucket.allowRequest cfg) s times hsorted
    (TokenBucket.init cfg t₀)]
  have htokPre : ((runLimiter (TokenBucket.allowRequest cfg) (TokenBucket.init cfg t₀)
      (times.takeWhile (fun t => t < s))).2).tokens ≤ cfg.maxTokens :=
    tb_run_tokens cfg _ _ (Nat.le_refl _)
  obtain ⟨hfin, hd⟩ := tb_aux cfg s
    ((times.dropWhile (fun t => t < s)).takeWhile (fun t => t < s + 60000))
    ((runLimiter (TokenBucket.allowRequest cfg) (TokenBucket.init cfg t₀)
      (times.takeWhile (fun t => t < s))).2)
    0 (mid_mem s times hsorted) ⟨htokPre, Or.inl rfl⟩
  rcases hd with h0 | ⟨h2a, _⟩ | ⟨_, h3b, h3c⟩
  · omega
  · omega
  · set Lf := (((runLimiter (TokenBucket.allowRequest cfg)
      ((runLimiter (TokenBucket.allowRequest cfg) (TokenBucket.init cfg t₀)
        (times.takeWhile (fun t => t < s))).2)
      ((times.dropWhile (fun t => t < s)).takeWhile (fun t => t < s + 60000))).2).lastRefillTime)
      with hLf
    have h5 : (Lf - s) * cfg.requestsPerMinute / 60000 < cfg.requestsPerMinute := by
      rw [Nat.div_lt_iff_lt_mul (by omega : (0:ℕ) < 60000)]
      calc (Lf - s) * cfg.requestsPerMinute < 60000 * cfg.requestsPerMinute :=
            (Nat.mul_lt_mul_right (by omega : 0 < cfg.requestsPerMinute)).mpr (by omega)
        _ = cfg.requestsPerMinute * 60000 := Nat.mul_comm _ _
    omega

/-- `burstLimit || requestsPerMinute` never exceeds `max(R, B)` (reading `B`
as `R` itself when no burst limit is configured). -/
theorem maxTokens_le_max (cfg : RateLimitConfig) :
    cfg.maxTokens ≤ max cfg.requestsPerMinute (cfg.burstLimit.getD cfg.requestsPerMinute) := by
  cases hb : cfg.burstLimit with
  | none => simp [RateLimitConfig.maxTokens, hb]
  | some b =>
    simp only [RateLimitConfig.maxTokens, hb, Option.getD]
    split_ifs <;> omega

/-- C7 counterexample: the token-bucket limiter configured with
`requestsPerMinute = 2, burstLimit = 2` admits three requests whose admission
times all fall in the window `[0, 60000)` — the third call arrives mid-window
after a refill — exceeding the claimed bound `max(R, B) = 2`. The sequence of
call times is monotone, so this is a genuine run. -/
theorem c7_token_bucket_exceeds_spec_bound :
    List.Pairwise (· ≤ ·) [0, 0, 30000] ∧
      max (2 : ℕ) ((some 2).getD 2) = 2 ∧
      admittedInWindow (runLimiter (TokenBucket.allowRequest ⟨2, some 2⟩)
        (TokenBucket.init ⟨2, some 2⟩ 0) [0, 0, 30000]).1 0 = 3 := by
  decide

/-- C7 (amended): for a limiter configured with `requestsPerMinute = R` and
`burstLimit = B` and any monotone sequence of `allowRequest` call times, the
number of admissions whose times fall within any contiguous 60-second window
`[s, s + 60000)` is at most `max(R, B)` for the sliding-window limiter, but
only at most `max(R, B) + R` for the token-bucket limiter (its refill can
hand back tokens already spent inside the same window; the `+ R` is needed,
as the counterexample shows). `B` reads as `R` when `burstLimit` is absent,
matching `burstLimit || requestsPerMinute` in the code. -/
theorem c7_rate_limiter_window_bounds (cfg : RateLimitConfig) (s t₀ : ℕ)
    (times : List ℕ) (hsorted : List.Pairwise (· ≤ ·) times)
    (hR : 1 ≤ cfg.requestsPerMinute) :
    admittedInWindow (runLimiter (SlidingWindow.allowRequest cfg) [] times).1 s ≤
        max cfg.requestsPerMinute (cfg.burstLimit.getD cfg.requestsPerMinute) ∧
      admittedInWindow (runLimiter (TokenBucket.allowRequest cfg)
          (TokenBucket.init cfg t₀) times).1 s ≤
        max cfg.requestsPerMinute (cfg.burstLimit.getD cfg.requestsPerMinute) +
          cfg.requestsPerMinute :=
  ⟨Nat.le_trans (sw_window_bound cfg s times hsorted) (maxTokens_le_max cfg),
    Nat.le_trans (tb_window_bound cfg hR s t₀ times hsorted)
      (Nat.add_le_add_right (maxTokens_le_max cfg) _)⟩

/-- Witness for C7 at the concrete configuration `R = 2, B = 2`, window start
`0` and call times `[0, 0, 30000]`. -/
theorem c7_rate_limiter_window_bounds_witness :
    (List.Pairwise (· ≤ ·) [0, 0, 30000] ∧ 1 ≤ (2 : ℕ)) ∧
      (admittedInWindow (runLimiter (SlidingWindow.allowRequest ⟨2, some 2⟩) []
          [0, 0, 30000]).1 0 ≤ max 2 ((some 2).getD 2) ∧
        admittedInWindow (runLimiter (TokenBucket.allowRequest ⟨2, some 2⟩)
            (TokenBucket.init ⟨2, some 2⟩ 0) [0, 0, 30000]).1 0 ≤
          max 2 ((some 2).getD 2) + 2) :=
  ⟨⟨by decide, by decide⟩,
    c7_rate_limiter_window_bounds ⟨2, some 2⟩ 0 0 [0, 0, 30000] (by decide) (by decide)⟩

/-! ## Claim C1: the same-asset predicate -/

/-- Modelled from the spec (§4.3 and claim C1): two assets are the same iff
their chain tags are equal and either both carry a contract address and the
contracts compare equal case-insensitively, or neither carries one and the
symbols compare equal. -/
def specSameAsset (a b : AssetEntity) : Prop :=
  a.chain = b.chain ∧
    ((a.contractAddress.isSome ∧ b.contractAddress.isSome ∧
        a.contractAddress.map strToLower = b.contractAddress.map strToLower) ∨
     (a.contractAddress = none ∧ b.contractAddress = none ∧ a.symbol = b.symbol))

/-- A concrete USDC position with an upper-cased contract address. -/
def c1AssetA : AssetEntity :=
  { id := "usdc-1", symbol := "USDC", type := .token, chain := some .ethereum
    balance := { amount := 1, decimals := 6, formatted := "1.000000" }
    contractAddress := some "0xAB" }

/-- The same position reported with the contract address lower-cased. -/
def c1AssetB : AssetEntity :=
  { id := "usdc-2", symbol := "USDC", type := .token, chain := some .ethereum
    balance := { amount := 2, decimals := 6, formatted := "2.000000" }
    contractAddress := some "0xab" }

/-- C1 counterexample: the two USDC assets satisfy the claimed predicate (same
chain, both carry contract addresses that compare equal case-insensitively),
yet `AssetEntity.isSameAsset` — the predicate `PortfolioAggregate.addAsset`
consults — returns `false`, because it compares contract addresses
case-sensitively. -/
theorem c1_entity_predicate_not_case_insensitive :
    specSameAsset c1AssetA c1AssetB ∧
      AssetEntity.isSameAsset c1AssetA c1AssetB = false := by
  refine ⟨⟨rfl, Or.inl ⟨rfl, rfl, ?_⟩⟩, ?_⟩ <;> decide

/-- C1 (amended): exact characterization of the two same-asset predicates.
`AssetReconciliationService.isSameAsset` returns `true` iff the symbols and
chains agree and either both sides carry (non-empty) contract addresses that
compare equal case-insensitively or neither does — in particular it returns
`false` when exactly one side carries a contract address.
`AssetEntity.isSameAsset` instead compares contract addresses
*case-sensitively* (together with the chains) when both sides carry one, and
otherwise — including when exactly one side carries a contract address — falls
back to comparing symbol, type and chain, so it can return `true` when exactly
one side carries a contract address. -/
theorem c1_same_asset_predicates (a b : AssetEntity) :
    (AssetReconciliationService.isSameAsset a b = true ↔
      (a.symbol = b.symbol ∧ a.chain = b.chain ∧
        ((strTruthy a.contractAddress ∧ strTruthy b.contractAddress ∧
            a.contractAddress.map strToLower = b.contractAddress.map strToLower) ∨
         (¬ strTruthy a.contractAddress ∧ ¬ strTruthy b.contractAddress)))) ∧
    (AssetEntity.isSameAsset a b = true ↔
      ((strTruthy a.contractAddress ∧ strTruthy b.contractAddress ∧
          a.contractAddress = b.contractAddress ∧ a.chain = b.chain) ∨
       (¬ (strTruthy a.contractAddress ∧ strTruthy b.contractAddress) ∧
          a.symbol = b.symbol ∧ a.type = b.type ∧ a.chain = b.chain))) := by
  constructor
  · unfold AssetReconciliationService.isSameAsset
    split_ifs with h1 h2 h3 <;> simp_all
  · unfold AssetEntity.isSameAsset
    split_ifs with h1 <;> simp_all

/-! ## Claim C6: circuit breaker transitions -/

/-- A sequence of `recordFailure` calls at the given times. -/
def CircuitBreaker.recordFailures (cfg : CircuitBreakerConfig) (times : List ℕ)
    (b : CircuitBreaker) : CircuitBreaker :=
  times.foldl (fun b t => CircuitBreaker.recordFailure cfg t b) b

/-- A sequence of `recordSuccess` calls at the given times. -/
def CircuitBreaker.recordSuccesses (cfg : CircuitBreakerConfig) (times : List ℕ)
    (b : CircuitBreaker) : CircuitBreaker :=
  times.foldl (fun b t => CircuitBreaker.recordSuccess cfg t b) b

namespace CircuitBreaker

theorem recordFailure_of_closed (cfg : CircuitBreakerConfig) (now : ℕ)
    (b : CircuitBreaker) (hb : b.state = .closed) :
    recordFailure cfg now b =
      (if b.failures + 1 ≥ cfg.failureThreshold then
        { b with failures := b.failures + 1, lastFailureTime := some now,
                 state := .«open», nextRetryTime := some (now + cfg.recoveryTimeout) }
      else { b with failures := b.failures + 1, lastFailureTime := some now }) := by
  obtain ⟨st, _, _, _, _, _, _⟩ := b
  cases hb
  rfl

theorem recordFailure_of_open (cfg : CircuitBreakerConfig) (now : ℕ)
    (b : CircuitBreaker) (hb : b.state = .«open») :
    recordFailure cfg now b =
      { b with failures := b.failures + 1, lastFailureTime := some now } := by
  obtain ⟨st, _, _, _, _, _, _⟩ := b
  cases hb
  rfl

theorem recordFailure_of_halfOpen (cfg : CircuitBreakerConfig) (now : ℕ)
    (b : CircuitBreaker) (hb : b.state = .halfOpen) :
    recordFailure cfg now b =
      { b with failures := b.failures + 1, lastFailureTime := some now,
               state := .«open», nextRetryTime := some (now + cfg.recoveryTimeout),
               halfOpenAttempts := 0 } := by
  obtain ⟨st, _, _, _, _, _, _⟩ := b
  cases hb
  rfl

theorem recordSuccess_of_closed (cfg : CircuitBreakerConfig) (now : ℕ)
    (b : CircuitBreaker) (hb : b.state = .closed) :
    recordSuccess cfg now b =
      { b with successes := b.successes + 1, lastSuccessTime := some now,
               failures := 0 } := by
  obtain ⟨st, _, _, _, _, _, _⟩ := b
  cases hb
  rfl

theorem recordSuccess_of_halfOpen (cfg : CircuitBreakerConfig) (now : ℕ)
    (b : CircuitBreaker) (hb : b.state = .halfOpen) :
    recordSuccess cfg now b =
      (if b.halfOpenAttempts + 1 ≥ cfg.halfOpenRetries then
        { b with successes := b.successes + 1, lastSuccessTime := some now,
                 state := .closed, failures := 0, halfOpenAttempts := 0 }
      else
        { b with successes := b.successes + 1, lastSuccessTime := some now,
                 halfOpenAttempts := b.halfOpenAttempts + 1 }) := by
  obtain ⟨st, _, _, _, _, _, _⟩ := b
  cases hb
  rfl

/-- Once the breaker is Open, further recorded failures keep it Open. -/
theorem recordFailures_of_open (cfg : CircuitBreakerConfig) :
    ∀ (times : List ℕ) (b : CircuitBreaker), b.state = .«open» →
      (recordFailures cfg times b).state = .«open» := by
  intro times
  induction times with
  | nil => intro b hb; exact hb
  | cons t rest ih =>
    intro b hb
    show (recordFailures cfg rest (recordFailure cfg t b)).state = .«open»
    exact ih _ (by rw [recordFailure_of_open cfg t b hb]; exact hb)

/-- `failureThreshold` consecutive failures starting from Closed with
`failures` accumulated so far open the breaker. -/
theorem closed_failures_open (cfg : CircuitBreakerConfig) :
    ∀ (times : List ℕ) (b : CircuitBreaker), b.state = .closed →
      times ≠ [] → b.failures + times.length = cfg.failureThreshold →
      (recordFailures cfg times b).state = .«open» := by
  intro times
  induction times with
  | nil => intro b _ hne _; exact absurd rfl hne
  | cons t rest ih =>
    intro b hb _ hlen
    simp only [List.length_cons] at hlen
    show (recordFailures cfg rest (recordFailure cfg t b)).state = .«open»
    rw [recordFailure_of_closed cfg t b hb]
    by_cases hth : b.failures + 1 ≥ cfg.failureThreshold
    · rw [if_pos hth]
      exact recordFailures_of_open cfg rest _ rfl
    · rw [if_neg hth]
      have hrest : rest ≠ [] := by
        intro hnil
        apply hth
        rw [hnil] at hlen
        simp at hlen
        omega
      apply ih
      · exact hb
      · exact hrest
      · show b.failures + 1 + rest.length = cfg.failureThreshold
        omega

/-- Once the breaker is Closed, further recorded successes keep it Closed with
the failure counter reset. -/
theorem recordSuccesses_of_closed (cfg : CircuitBreakerConfig) :
    ∀ (times : List ℕ) (b : CircuitBreaker), b.state = .closed → b.failures = 0 →
      (recordSuccesses cfg times b).state = .closed ∧
        (recordSuccesses cfg times b).failures = 0 := by
  intro times
  induction times with
  | nil => intro b hb hf; exact ⟨hb, hf⟩
  | cons t rest ih =>
    intro b hb _
    show (recordSuccesses cfg rest (recordSuccess cfg t b)).state = .closed ∧
      (recordSuccesses cfg rest (recordSuccess cfg t b)).failures = 0
    rw [recordSuccess_of_closed cfg t b hb]
    apply ih
    · exact hb
    · rfl

/-- `halfOpenRetries` recorded successes starting from HalfOpen with
`halfOpenAttempts` accumulated so far close the breaker and reset failures. -/
theorem halfOpen_successes_closed (cfg : CircuitBreakerConfig) :
    ∀ (times : List ℕ) (b : CircuitBreaker), b.state = .halfOpen →
      times ≠ [] → b.halfOpenAttempts + times.length = cfg.halfOpenRetries →
      (recordSuccesses cfg times b).state = .closed ∧
        (recordSuccesses cfg times b).failures = 0 := by
  intro times
  induction times with
  | nil => intro b _ hne _; exact absurd rfl hne
  | cons t rest ih =>
    intro b hb _ hlen
    simp only [List.length_cons] at hlen
    show (recordSuccesses cfg rest (recordSuccess cfg t b)).state = .closed ∧
      (recordSuccesses cfg rest (recordSuccess cfg t b)).failures = 0
    rw [recordSuccess_of_halfOpen cfg t b hb]
    by_cases hth : b.halfOpenAttempts + 1 ≥ cfg.halfOpenRetries
    · rw [if_pos hth]
      apply recordSuccesses_of_closed
      · rfl
      · rfl
    · rw [if_neg hth]
      have hrest : rest ≠ [] := by
        intro hnil
        apply hth
        rw [hnil] at hlen
        simp at hlen
        omega
      apply ih
      · exact hb
      · exact hrest
      · show b.halfOpenAttempts + 1 + rest.length = cfg.halfOpenRetries
        omega

end CircuitBreaker

/-- C6: the circuit breaker state machine behaves as specified (P7): from a
fresh Closed state, `failureThreshold` consecutive recorded failures open the
breaker; once `nextRetryTime` is reached, the next `getState` inspection moves
an Open breaker to HalfOpen with zero half-open attempts; `halfOpenRetries`
recorded successes in HalfOpen close it and reset the failure counter; and any
recorded failure in HalfOpen reopens it with a fresh `nextRetryTime`. -/
theorem c6_circuit_breaker_transitions (cfg : CircuitBreakerConfig)
    (hth : 1 ≤ cfg.failureThreshold) (hho : 1 ≤ cfg.halfOpenRetries) :
    (∀ (b : CircuitBreaker) (times : List ℕ), b.state = .closed → b.failures = 0 →
      times.length = cfg.failureThreshold →
      (CircuitBreaker.recordFailures cfg times b).state = .«open») ∧
    (∀ (b : CircuitBreaker) (t now : ℕ), b.state = .«open» →
      b.nextRetryTime = some t → t ≤ now →
      CircuitBreaker.getState now b =
        (.halfOpen, { b with state := .halfOpen, halfOpenAttempts := 0 })) ∧
    (∀ (b : CircuitBreaker) (times : List ℕ), b.state = .halfOpen →
      b.halfOpenAttempts = 0 → times.length = cfg.halfOpenRetries →
      (CircuitBreaker.recordSuccesses cfg times b).state = .closed ∧
        (CircuitBreaker.recordSuccesses cfg times b).failures = 0) ∧
    (∀ (b : CircuitBreaker) (now : ℕ), b.state = .halfOpen →
      (CircuitBreaker.recordFailure cfg now b).state = .«open» ∧
        (CircuitBreaker.recordFailure cfg now b).nextRetryTime =
          some (now + cfg.recoveryTimeout)) := by
  refine ⟨?_, ?_, ?_, ?_⟩
  · intro b times hb hf hlen
    refine CircuitBreaker.closed_failures_open cfg times b hb ?_ (by omega)
    intro hnil
    rw [hnil] at hlen
    simp at hlen
    omega
  · intro b t now hb hr hnow
    obtain ⟨st, _, _, _, _, _, _⟩ := b
    cases hb
    simp only [CircuitBreaker.nextRetryTime] at hr
    cases hr
    unfold CircuitBreaker.getState
    simp [hnow]
  · intro b times hb ha hlen
    refine CircuitBreaker.halfOpen_successes_closed cfg times b hb ?_ (by omega)
    intro hnil
    rw [hnil] at hlen
    simp at hlen
    omega
  · intro b now hb
    rw [CircuitBreaker.recordFailure_of_halfOpen cfg now b hb]
    exact ⟨rfl, rfl⟩

/-! ## Claims C2 and C3: the merge rules -/

/-- An asset reported by a CEX with 6 decimals; its price record carries
`timestamp = 5` while its metadata carries `fetchedAt = 100`. -/
def c2AssetA : AssetEntity :=
  { id := "sol-cex", symbol := "SOL", type := .token, chain := some .solana
    balance := { amount := 1, decimals := 6, formatted := "1.000000" }
    price := some { value := 1, currency := "USD", timestamp := 5 }
    metadata := { source := some "cex", sourceType := some "cex", fetchedAt := some 100 } }

/-- The same holding reported on-chain with 18 decimals; its price record
carries `timestamp = 10` while its metadata carries `fetchedAt = 0`. -/
def c2AssetB : AssetEntity :=
  { id := "sol-chain", symbol := "SOL", type := .token, chain := some .solana
    balance := { amount := 2, decimals := 18, formatted := "2.000000000000000000" }
    price := some { value := 1, currency := "USD", timestamp := 10 }
    metadata := { source := some "onchain", sourceType := some "blockchain"
                  fetchedAt := some 0 } }

/-- C2 counterexample: the pair (`c2AssetA`, `c2AssetB`) satisfies both
same-asset predicates and source-type precedence prefers `c2AssetB`
(`blockchain`, rank 1, with 18 decimals) over `c2AssetA` (`cex`, rank 3), yet
`AssetEntity.merge` — the merge `PortfolioAggregate.addAsset` and
`PortfolioAggregate.reconcile` apply — produces a balance with the receiver's
6 decimals, not the preferred asset's 18. -/
theorem c2_entity_merge_ignores_source_precedence :
    AssetEntity.isSameAsset c2AssetA c2AssetB = true ∧
    AssetReconciliationService.isSameAsset c2AssetA c2AssetB = true ∧
    AssetReconciliationService.selectPreferredSource c2AssetA c2AssetB = c2AssetB ∧
    c2AssetB.balance.decimals = 18 ∧
    ∃ m, AssetEntity.merge c2AssetA c2AssetB = .ok m ∧ m.balance.decimals = 6 := by
  refine ⟨by decide, by decide, by decide, rfl, ?_⟩
  exact ⟨_, rfl, rfl⟩

/-- C2 (amended): for every same-asset pair both merge implementations
conserve the balance — `merged.balance.amount = a.amount + b.amount` — and
format the summed amount; but only `AssetReconciliationService.mergeAssets`
takes the decimals (and the formatting width) from the asset preferred by
source-type precedence (on-chain/blockchain 1 < dex 2 < cex 3 < manual 4,
ties to the first argument), while `AssetEntity.merge` always takes the
receiver's decimals. -/
theorem c2_merge_balance_conservation (a b : AssetEntity) :
    (AssetReconciliationService.isSameAsset a b = true →
      ∃ m, AssetReconciliationService.mergeAssets a b = .ok m ∧
        m.balance.amount = a.balance.amount + b.balance.amount ∧
        m.balance.decimals =
          (AssetReconciliationService.selectPreferredSource a b).balance.decimals ∧
        m.balance.formatted = toFixed (a.balance.amount + b.balance.amount)
          (AssetReconciliationService.selectPreferredSource a b).balance.decimals) ∧
    (AssetReconciliationService.selectPreferredSource a b =
      (if AssetReconciliationService.sourcePriority
            (AssetReconciliationService.sourceTypeKey a) ≤
          AssetReconciliationService.sourcePriority
            (AssetReconciliationService.sourceTypeKey b)
        then a else b)) ∧
    (AssetEntity.isSameAsset a b = true →
      ∃ m, AssetEntity.merge a b = .ok m ∧
        m.balance.amount = a.balance.amount + b.balance.amount ∧
        m.balance.decimals = a.balance.decimals ∧
        m.balance.formatted =
          toFixed (a.balance.amount + b.balance.amount) a.balance.decimals) := by
  refine ⟨?_, rfl, ?_⟩
  · intro h
    unfold AssetReconciliationService.mergeAssets
    rw [h]
    exact ⟨_, rfl, rfl, rfl, rfl⟩
  · intro h
    unfold AssetEntity.merge
    rw [h]
    exact ⟨_, rfl, rfl, rfl, rfl⟩

/-- C2 witness: the amended statement applied to the concrete same-asset pair
above. -/
theorem c2_merge_balance_conservation_witness :
    ∃ m, AssetEntity.merge c2AssetA c2AssetB = .ok m ∧
      m.balance.amount = c2AssetA.balance.amount + c2AssetB.balance.amount ∧
      m.balance.decimals = c2AssetA.balance.decimals ∧
      m.balance.formatted = toFixed
        (c2AssetA.balance.amount + c2AssetB.balance.amount)
        c2AssetA.balance.decimals :=
  (c2_merge_balance_conservation c2AssetA c2AssetB).2.2 (by decide)

/-- C3 counterexample: on the same-asset pair above, `metadata.fetchedAt`
prefers `c2AssetA` (100 > 0), but `AssetEntity.merge` selects the price with
the larger `price.timestamp` and returns `c2AssetB`'s price — which differs
from `c2AssetA`'s — contradicting the claim for the entity merge the
portfolio aggregate uses. -/
theorem c3_entity_merge_uses_price_timestamp :
    AssetReconciliationService.fetchedMs c2AssetA >
      AssetReconciliationService.fetchedMs c2AssetB ∧
    c2AssetA.price ≠ c2AssetB.price ∧
    ∃ m, AssetEntity.merge c2AssetA c2AssetB = .ok m ∧ m.price = c2AssetB.price := by
  refine ⟨by decide, by decide, ?_⟩
  exact ⟨_, rfl, rfl⟩

/-- C3 (amended): for every same-asset pair, both merge implementations leave
the merged price undefined iff both inputs' prices are undefined and use the
single defined price when only one side has one; when both sides carry a
price, `AssetReconciliationService.mergeAssets` selects by
`metadata.fetchedAt` (missing values count as 0; ties go to the first
argument), while `AssetEntity.merge` selects by `price.timestamp` (ties go to
the second argument). -/
theorem c3_merge_price_recency (a b : AssetEntity) :
    (AssetReconciliationService.isSameAsset a b = true →
      ∃ m, AssetReconciliationService.mergeAssets a b = .ok m ∧
        m.price = AssetReconciliationService.selectMostRecentPrice a b ∧
        (m.price = none ↔ a.price = none ∧ b.price = none)) ∧
    (AssetReconciliationService.selectMostRecentPrice a b =
      (match a.price, b.price with
        | none, none => none
        | none, some q => some q
        | some p, none => some p
        | some p, some q =>
          if AssetReconciliationService.fetchedMs a ≥
              AssetReconciliationService.fetchedMs b then some p else some q)) ∧
    (AssetEntity.isSameAsset a b = true →
      ∃ m, AssetEntity.merge a b = .ok m ∧
        m.price = (match a.price, b.price with
          | none, none => none
          | none, some q => some q
          | some p, none => some p
          | some p, some q => some (if p.timestamp > q.timestamp then p else q)) ∧
        (m.price = none ↔ a.price = none ∧ b.price = none)) := by
  refine ⟨?_, ?_, ?_⟩
  · intro h
    unfold AssetReconciliationService.mergeAssets
    rw [h]
    refine ⟨_, rfl, rfl, ?_⟩
    show AssetReconciliationService.selectMostRecentPrice a b = none ↔
      a.price = none ∧ b.price = none
    unfold AssetReconciliationService.selectMostRecentPrice
    rcases a.price with _ | p <;> rcases b.price with _ | q <;> simp
    split <;> simp
  · unfold AssetReconciliationService.selectMostRecentPrice
    rcases a.price with _ | p <;> rcases b.price with _ | q <;> simp
  · intro h
    unfold AssetEntity.merge
    rw [h]
    refine ⟨_, rfl, ?_, ?_⟩
    · show (match a.price, b.price with
        | some p, some q => some (if p.timestamp > q.timestamp then p else q)
        | p, q => p.or q) =
        (match a.price, b.price with
          | none, none => none
          | none, some q => some q
          | some p, none => some p
          | some p, some q => some (if p.timestamp > q.timestamp then p else q))
      rcases a.price with _ | p <;> rcases b.price with _ | q <;> rfl
    · show (match a.price, b.price with
        | some p, some q => some (if p.timestamp > q.timestamp then p else q)
        | p, q => p.or q) = none ↔ a.price = none ∧ b.price = none
      rcases a.price with _ | p <;> rcases b.price with _ | q <;> simp

/-- C3 witness: the amended statement applied to the concrete same-asset pair
above. -/
theorem c3_merge_price_recency_witness :
    ∃ m, AssetReconciliationService.mergeAssets c2AssetA c2AssetB = .ok m ∧
      m.price = AssetReconciliationService.selectMostRecentPrice c2AssetA c2AssetB ∧
      (m.price = none ↔ c2AssetA.price = none ∧ c2AssetB.price = none) :=
  (c3_merge_price_recency c2AssetA c2AssetB).1 (by decide)

/-! ## Claim C4: reconciliation is idempotent

The reconciliation loops key every stored asset by its generated key; the
merge of two assets sharing a key is again keyed by that same key, so a second
pass finds no collision and rebuilds the map unchanged. The symbol-upper-case
class invariant (`AssetEntity.symbolUpper`, established by the `AssetEntity`
constructor for every entity the TypeScript code ever handles) is carried
through. -/

theorem mapGet_none {α : Type} (m : List (String × α)) (k : String)
    (h : ∀ kv ∈ m, kv.1 ≠ k) : mapGet m k = none := by
  unfold mapGet
  rw [List.find?_eq_none.mpr (fun kv hkv => by simpa using h kv hkv)]
  rfl

theorem mapSet_append {α : Type} (m : List (String × α)) (k : String) (v : α)
    (h : ∀ kv ∈ m, kv.1 ≠ k) : mapSet m k v = m ++ [(k, v)] := by
  unfold mapSet
  rw [if_neg]
  intro hany
  rcases List.any_eq_true.mp hany with ⟨kv, hkv, hk⟩
  exact h kv hkv (by simpa using hk)

theorem mapSet_keys {α : Type} (m : List (String × α)) (k : String) (v : α)
    (h : m.any (fun kv => kv.1 = k) = true) :
    (mapSet m k v).map (·.1) = m.map (·.1) := by
  unfold mapSet
  rw [if_pos h, List.map_map]
  apply List.map_congr_left
  intro kv _
  by_cases hk : kv.1 = k <;> simp [hk]

theorem mapSet_mem {α : Type} (m : List (String × α)) (k : String) (v : α)
    (kv : String × α) (h : kv ∈ mapSet m k v) : kv ∈ m ∨ kv = (k, v) := by
  unfold mapSet at h
  split at h
  · rcases List.mem_map.mp h with ⟨kv', hkv', heq⟩
    by_cases hk : kv'.1 = k
    · rw [if_pos hk] at heq
      right; exact heq.symm
    · rw [if_neg hk] at heq
      left; rw [← heq]; exact hkv'
  · rcases List.mem_append.mp h with h | h
    · left; exact h
    · right; simpa using h

theorem mapGet_mem {α : Type} (m : List (String × α)) (k : String) (v : α)
    (h : mapGet m k = some v) : (k, v) ∈ m := by
  unfold mapGet at h
  rcases hf : m.find? (fun kv => kv.1 = k) with _ | kv
  · rw [hf] at h; simp at h
  · rw [hf] at h
    simp at h
    have hmem := List.mem_of_find?_eq_some hf
    have hkey := List.find?_some hf
    simp only [decide_eq_true_eq] at hkey
    cases h
    rw [← hkey]
    exact hmem

namespace AssetReconciliationService

/-- `selectPreferredSource` returns one of its two arguments. -/
theorem selectPreferredSource_cases (a b : AssetEntity) :
    selectPreferredSource a b = a ∨ selectPreferredSource a b = b := by
  unfold selectPreferredSource
  split_ifs <;> [left; right] <;> rfl

/-- A successful `mergeAssets` is keyed like the preferred input and keeps the
symbol-upper-case invariant. -/
theorem mergeAssets_key (a1 a2 m : AssetEntity)
    (h : mergeAssets a1 a2 = .ok m)
    (h1 : a1.symbolUpper) (h2 : a2.symbolUpper) :
    generateAssetKey m = generateAssetKey (selectPreferredSource a1 a2) ∧
      m.symbolUpper := by
  unfold mergeAssets at h
  split_ifs at h with hsame
  simp only [Except.ok.injEq] at h
  have hpref : (selectPreferredSource a1 a2).symbolUpper := by
    rcases selectPreferredSource_cases a1 a2 with hc | hc <;> rw [hc] <;> assumption
  have hsym : m.symbol = (selectPreferredSource a1 a2).symbol := by
    rw [← h]
    show strToUpper (selectPreferredSource a1 a2).symbol = _
    exact hpref
  refine ⟨?_, ?_⟩
  · unfold generateAssetKey
    rw [hsym]
    have hchain : m.chain = (selectPreferredSource a1 a2).chain := by rw [← h]; rfl
    have hcontract : m.contractAddress =
        (selectPreferredSource a1 a2).contractAddress := by rw [← h]; rfl
    rw [hchain, hcontract]
  · show strToUpper m.symbol = m.symbol
    rw [hsym]
    exact hpref

end AssetReconciliationService

theorem mapGet_eq_none {α : Type} (m : List (String × α)) (k : String)
    (h : mapGet m k = none) : ∀ kv ∈ m, kv.1 ≠ k := by
  intro kv hkv hk
  rcases hf : m.find? (fun kv => kv.1 = k) with _ | kv'
  · have := List.find?_eq_none.mp hf kv hkv
    simp [hk] at this
  · unfold mapGet at h
    rw [hf] at h
    simp at h

namespace AssetReconciliationService

/-- Well-formedness of the reconciliation map: pairwise-distinct keys, every
value stored under its own generated key, symbols upper-case. -/
def MapWF (acc : List (String × AssetEntity)) : Prop :=
  (acc.map (·.1)).Nodup ∧
    ∀ kv ∈ acc, generateAssetKey kv.2 = kv.1 ∧ kv.2.symbolUpper

theorem reconcileLoop_wf :
    ∀ (l : List AssetEntity) (acc res : List (String × AssetEntity)),
      MapWF acc → (∀ a ∈ l, a.symbolUpper) →
      reconcileLoop l acc = .ok res → MapWF res := by
  intro l
  induction l with
  | nil =>
    intro acc res hwf _ h
    cases h
    exact hwf
  | cons a rest ih =>
    intro acc res hwf hl h
    obtain ⟨hnd, hmem⟩ := hwf
    have ha : a.symbolUpper := hl a (by simp)
    have hrest : ∀ x ∈ rest, x.symbolUpper := fun x hx => hl x (by simp [hx])
    simp only [reconcileLoop] at h
    rcases hg : mapGet acc (generateAssetKey a) with _ | existing
    · rw [hg] at h
      have hfresh := mapGet_eq_none acc (generateAssetKey a) hg
      refine ih _ res ⟨?_, ?_⟩ hrest h
      · rw [mapSet_append _ _ _ hfresh]
        simp only [List.map_append, List.map_cons, List.map_nil]
        rw [List.nodup_append]
        refine ⟨hnd, by simp, ?_⟩
        intro k hkm
        rcases List.mem_map.mp hkm with ⟨kv, hkv, hkva⟩
        simp only [List.mem_singleton]
        intro hk
        rw [hk] at hkva
        exact hfresh kv hkv hkva
      · intro kv hkv
        rw [mapSet_append _ _ _ hfresh] at hkv
        rcases List.mem_append.mp hkv with hm | hm
        · exact hmem kv hm
        · simp only [List.mem_singleton] at hm
          rw [hm]
          exact ⟨rfl, ha⟩
    · rw [hg] at h
      have h' : (mergeAssets existing a >>= fun merged =>
          reconcileLoop rest (mapSet acc (generateAssetKey a) merged)) = .ok res := h
      rcases hm : mergeAssets existing a with e | merged
      · rw [hm] at h'
        have hbind : ((Except.error e : Except String AssetEntity) >>= fun merged =>
            reconcileLoop rest (mapSet acc (generateAssetKey a) merged)) =
            .error e := rfl
        rw [hbind] at h'
        exact absurd h' (by simp)
      · rw [hm, except_ok_bind] at h'
        have hexmem : (generateAssetKey a, existing) ∈ acc := mapGet_mem _ _ _ hg
        obtain ⟨hexkey, hexsym⟩ := hmem _ hexmem
        have hmkey := mergeAssets_key existing a merged hm hexsym ha
        have hkey : generateAssetKey merged = generateAssetKey a := by
          rcases selectPreferredSource_cases existing a with hc | hc
          · rw [hmkey.1, hc]; exact hexkey
          · rw [hmkey.1, hc]
        have hany : acc.any (fun kv => kv.1 = generateAssetKey a) = true := by
          rw [List.any_eq_true]
          exact ⟨_, hexmem, by simp⟩
        refine ih _ res ⟨?_, ?_⟩ hrest h'
        · rw [mapSet_keys _ _ _ hany]
          exact hnd
        · intro kv hkv
          rcases mapSet_mem _ _ _ _ hkv with hmm | hmm
          · exact hmem kv hmm
          · rw [hmm]
            exact ⟨hkey, hmkey.2⟩

theorem reconcileLoop_fresh :
    ∀ (l : List AssetEntity) (acc : List (String × AssetEntity)),
      (∀ a ∈ l, ∀ kv ∈ acc, kv.1 ≠ generateAssetKey a) →
      (l.map generateAssetKey).Nodup →
      reconcileLoop l acc = .ok (acc ++ l.map (fun a => (generateAssetKey a, a))) := by
  intro l
  induction l with
  | nil => intro acc _ _; simp [reconcileLoop]
  | cons a rest ih =>
    intro acc hfresh hnd
    rw [List.map_cons, List.nodup_cons] at hnd
    obtain ⟨hnotin, hndr⟩ := hnd
    have hnone : mapGet acc (generateAssetKey a) = none :=
      mapGet_none _ _ (hfresh a (by simp))
    simp only [reconcileLoop]
    rw [hnone, mapSet_append _ _ _ (hfresh a (by simp))]
    rw [ih (acc ++ [(generateAssetKey a, a)]) ?_ hndr]
    · simp
    · intro x hx kv hkv
      rcases List.mem_append.mp hkv with hm | hm
      · exact hfresh x (by simp [hx]) kv hm
      · simp only [List.mem_singleton] at hm
        rw [hm]
        intro hk
        simp only at hk
        exact hnotin (by rw [hk]; exact List.mem_map_of_mem generateAssetKey hx)

/-- The reconciliation service's `reconcile` is idempotent. -/
theorem reconcile_idem (assets l : List AssetEntity)
    (hsym : ∀ a ∈ assets, a.symbolUpper)
    (h : reconcile assets = .ok l) : reconcile l = .ok l := by
  unfold reconcile at h ⊢
  rcases hloop : reconcileLoop assets [] with e | M
  · rw [hloop] at h
    simp [Except.map] at h
  · rw [hloop] at h
    have hl : l = M.map (·.2) := by
      simp only [Except.map] at h
      cases h
      rfl
    have hwf := reconcileLoop_wf assets [] M ⟨by simp, by simp⟩ hsym hloop
    obtain ⟨hnd, hmem⟩ := hwf
    have hkeys : l.map generateAssetKey = M.map (·.1) := by
      rw [hl, List.map_map]
      apply List.map_congr_left
      intro kv hkv
      exact (hmem kv hkv).1
    rw [reconcileLoop_fresh l [] (by simp) (by rw [hkeys]; exact hnd)]
    simp only [List.nil_append, Except.map, List.map_map]
    show Except.ok (List.map (fun a => a) l) = Except.ok l
    rw [List.map_id']

end AssetReconciliationService

theorem append_colon_inj : ∀ (a b x y : List Char), ':' ∉ a → ':' ∉ b →
    a ++ ':' :: x = b ++ ':' :: y → a = b ∧ x = y
  | [], [], x, y, _, _, h => by simpa using h
  | [], c :: b', x, y, _, hb, h => by
      simp only [List.nil_append, List.cons_append, List.cons.injEq] at h
      exact absurd (by rw [← h.1]; exact List.mem_cons_self ':' b') hb
  | c :: a', [], x, y, ha, _, h => by
      simp only [List.cons_append, List.nil_append, List.cons.injEq] at h
      exact absurd (by rw [h.1]; exact List.mem_cons_self ':' a') ha
  | c :: a', c' :: b', x, y, ha, hb, h => by
      simp only [List.cons_append, List.cons.injEq] at h
      obtain ⟨h1, h2⟩ := append_colon_inj a' b' x y
        (fun hm => ha (List.mem_cons_of_mem _ hm))
        (fun hm => hb (List.mem_cons_of_mem _ hm)) h.2
      exact ⟨by rw [h.1, h1], h2⟩

/-- No `Chain` enum string contains a colon. -/
theorem chain_str_no_colon (c : Chain) : ':' ∉ c.str.data := by
  cases c <;> decide

/-- No `Chain` enum string equals the `'global'` placeholder. -/
theorem chain_str_ne_global (c : Chain) : c.str ≠ "global" := by
  cases c <;> decide

/-- The fields of a successful `AssetEntity.merge` that feed the aggregate's
asset key. -/
theorem AssetEntity.merge_fields (e a m : AssetEntity) (h : e.merge a = .ok m) :
    m.symbol = strToUpper e.symbol ∧ m.type = e.type ∧ m.chain = e.chain ∧
      m.contractAddress = strOr e.contractAddress a.contractAddress := by
  unfold AssetEntity.merge at h
  split_ifs at h <;> first
    | exact Except.noConfusion h
    | · simp only [Except.ok.injEq] at h
        rw [← h]
        exact ⟨rfl, rfl, rfl, rfl⟩

namespace Portfolio

/-- A successful `AssetEntity.merge` of two assets sharing the aggregate's
asset key is again keyed by that key, and keeps the symbol-upper-case
invariant. -/
theorem getAssetKey_merge (e a m : AssetEntity)
    (hm : e.merge a = .ok m) (he : e.symbolUpper)
    (hkey : getAssetKey e = getAssetKey a) :
    getAssetKey m = getAssetKey e ∧ m.symbolUpper := by
  obtain ⟨hsym, hty, hch, hco⟩ := AssetEntity.merge_fields e a m hm
  have hsym' : m.symbol = e.symbol := by rw [hsym, he]
  have hmsu : m.symbolUpper := by
    show strToUpper m.symbol = m.symbol
    rw [hsym']
    exact he
  refine ⟨?_, hmsu⟩
  by_cases het : strTruthy e.contractAddress
  · have hmc : m.contractAddress = e.contractAddress := by
      rw [hco]; unfold strOr; rw [if_pos het]
    unfold getAssetKey
    rw [hmc, hch, hsym', hty]
  · have hmc : m.contractAddress = a.contractAddress := by
      rw [hco]; unfold strOr; rw [if_neg het]
    by_cases hat : strTruthy a.contractAddress
    · rcases hec : e.chain with _ | c
      · unfold getAssetKey
        rw [hmc, hch, hec, hsym', hty]
        rw [if_neg (by simp), if_neg (by simp [het])]
      · have heKey : getAssetKey e = c.str ++ ":" ++ e.symbol ++ ":" ++ e.type.str := by
          unfold getAssetKey
          rw [if_neg (by simp [het]), hec]
        rcases hac : a.chain with _ | c'
        · have haKey : getAssetKey a = "global" ++ ":" ++ a.symbol ++ ":" ++ a.type.str := by
            unfold getAssetKey
            rw [if_neg (by simp [hac]), hac]
          rw [heKey, haKey] at hkey
          have hd := congrArg String.data hkey
          simp only [String.data_append] at hd
          obtain ⟨h1, _⟩ := append_colon_inj c.str.data ("global" : String).data
            (e.symbol.data ++ ':' :: e.type.str.data)
            (a.symbol.data ++ ':' :: a.type.str.data)
            (chain_str_no_colon c) (by decide)
            (by simpa [List.append_assoc, List.singleton_append,
              show (":" : String).data = [':'] from rfl] using hd)
          exact absurd (String.ext h1) (chain_str_ne_global c)
        · have haKey : getAssetKey a = c'.str ++ ":" ++ (a.contractAddress.getD "") := by
            unfold getAssetKey
            rw [if_pos (by simp [hat, hac]), hac]
          have hmKey : getAssetKey m = c.str ++ ":" ++ (a.contractAddress.getD "") := by
            unfold getAssetKey
            rw [hmc, hch, hec]
            rw [if_pos (by simp [hat])]
          rw [heKey, haKey] at hkey
          have hd := congrArg String.data hkey
          simp only [String.data_append] at hd
          obtain ⟨h1, h2⟩ := append_colon_inj c.str.data c'.str.data
            (e.symbol.data ++ ':' :: e.type.str.data) (a.contractAddress.getD "").data
            (chain_str_no_colon c) (chain_str_no_colon c')
            (by simpa [List.append_assoc, List.singleton_append,
              show (":" : String).data = [':'] from rfl] using hd)
          rw [hmKey, heKey]
          apply String.ext
          simp only [String.data_append, List.append_assoc, List.singleton_append,
            show (":" : String).data = [':'] from rfl]
          rw [← h2]
          simp
    · have hmNT : ¬ strTruthy m.contractAddress := by rw [hmc]; exact hat
      unfold getAssetKey
      rw [if_neg (by simp [hmNT]), if_neg (by simp [het])]
      rw [hch, hsym', hty]

/-- Well-formedness of the aggregate's reconciliation map. -/
def MapWF (acc : List (String × AssetEntity)) : Prop :=
  (acc.map (·.1)).Nodup ∧
    ∀ kv ∈ acc, getAssetKey kv.2 = kv.1 ∧ kv.2.symbolUpper

theorem portfolioLoop_wf :
    ∀ (l : List AssetEntity) (acc res : List (String × AssetEntity)),
      MapWF acc → (∀ a ∈ l, a.symbolUpper) →
      reconcileLoop l acc = .ok res → MapWF res := by
  intro l
  induction l with
  | nil =>
    intro acc res hwf _ h
    cases h
    exact hwf
  | cons a rest ih =>
    intro acc res hwf hl h
    obtain ⟨hnd, hmem⟩ := hwf
    have ha : a.symbolUpper := hl a (by simp)
    have hrest : ∀ x ∈ rest, x.symbolUpper := fun x hx => hl x (by simp [hx])
    simp only [reconcileLoop] at h
    rcases hg : mapGet acc (getAssetKey a) with _ | existing
    · rw [hg] at h
      have hfresh := mapGet_eq_none acc (getAssetKey a) hg
      refine ih _ res ⟨?_, ?_⟩ hrest h
      · rw [mapSet_append _ _ _ hfresh]
        simp only [List.map_append, List.map_cons, List.map_nil]
        rw [List.nodup_append]
        refine ⟨hnd, by simp, ?_⟩
        intro k hkm
        rcases List.mem_map.mp hkm with ⟨kv, hkv, hkva⟩
        simp only [List.mem_singleton]
        intro hk
        rw [hk] at hkva
        exact hfresh kv hkv hkva
      · intro kv hkv
        rw [mapSet_append _ _ _ hfresh] at hkv
        rcases List.mem_append.mp hkv with hmm | hmm
        · exact hmem kv hmm
        · simp only [List.mem_singleton] at hmm
          rw [hmm]
          exact ⟨rfl, ha⟩
    · rw [hg] at h
      have h' : (existing.merge a >>= fun merged =>
          reconcileLoop rest (mapSet acc (getAssetKey a) merged)) = .ok res := h
      rcases hm : existing.merge a with e | merged
      · rw [hm] at h'
        have hbind : ((Except.error e : Except String AssetEntity) >>= fun merged =>
            reconcileLoop rest (mapSet acc (getAssetKey a) merged)) =
            .error e := rfl
        rw [hbind] at h'
        exact absurd h' (by simp)
      · rw [hm, except_ok_bind] at h'
        have hexmem : (getAssetKey a, existing) ∈ acc := mapGet_mem _ _ _ hg
        obtain ⟨hexkey, hexsym⟩ := hmem _ hexmem
        have hmkey := getAssetKey_merge existing a merged hm hexsym hexkey
        have hkey : getAssetKey merged = getAssetKey a := by
          rw [hmkey.1]
          exact hexkey
        have hany : acc.any (fun kv => kv.1 = getAssetKey a) = true := by
          rw [List.any_eq_true]
          exact ⟨_, hexmem, by simp⟩
        refine ih _ res ⟨?_, ?_⟩ hrest h'
        · rw [mapSet_keys _ _ _ hany]
          exact hnd
        · intro kv hkv
          rcases mapSet_mem _ _ _ _ hkv with hmm | hmm
          · exact hmem kv hmm
          · rw [hmm]
            exact ⟨hkey, hmkey.2⟩

theorem portfolioLoop_fresh :
    ∀ (l : List AssetEntity) (acc : List (String × AssetEntity)),
      (∀ a ∈ l, ∀ kv ∈ acc, kv.1 ≠ getAssetKey a) →
      (l.map getAssetKey).Nodup →
      reconcileLoop l acc = .ok (acc ++ l.map (fun a => (getAssetKey a, a))) := by
  intro l
  induction l with
  | nil => intro acc _ _; simp [reconcileLoop]
  | cons a rest ih =>
    intro acc hfresh hnd
    rw [List.map_cons, List.nodup_cons] at hnd
    obtain ⟨hnotin, hndr⟩ := hnd
    have hnone : mapGet acc (getAssetKey a) = none :=
      mapGet_none _ _ (hfresh a (by simp))
    simp only [reconcileLoop]
    rw [hnone, mapSet_append _ _ _ (hfresh a (by simp))]
    rw [ih (acc ++ [(getAssetKey a, a)]) ?_ hndr]
    · simp
    · intro x hx kv hkv
      rcases List.mem_append.mp hkv with hmm | hmm
      · exact hfresh x (by simp [hx]) kv hmm
      · simp only [List.mem_singleton] at hmm
        rw [hmm]
        intro hk
        simp only at hk
        exact hnotin (by rw [hk]; exact List.mem_map_of_mem getAssetKey hx)

/-- The portfolio aggregate's reconciliation pass is idempotent on the asset
map. -/
theorem reconcileMap_idem (m r : List (String × AssetEntity))
    (hsym : ∀ kv ∈ m, kv.2.symbolUpper)
    (h : reconcileMap m = .ok r) : reconcileMap r = .ok r := by
  unfold reconcileMap at h ⊢
  have hwf := portfolioLoop_wf (m.map (·.2)) [] r ⟨by simp, by simp⟩
    (fun a ha => by
      rcases List.mem_map.mp ha with ⟨kv, hkv, hkva⟩
      rw [← hkva]
      exact hsym kv hkv) h
  obtain ⟨hnd, hmem⟩ := hwf
  have hkeys : (r.map (·.2)).map getAssetKey = r.map (·.1) := by
    rw [List.map_map]
    apply List.map_congr_left
    intro kv hkv
    exact (hmem kv hkv).1
  rw [portfolioLoop_fresh (r.map (·.2)) [] (by simp) (by rw [hkeys]; exact hnd)]
  congr 1
  rw [List.nil_append, List.map_map]
  exact (List.map_congr_left (fun kv hkv => by
    show (getAssetKey kv.2, kv.2) = kv
    rw [(hmem kv hkv).1])).trans (List.map_id r)

end Portfolio

/-- C4: reconciliation is idempotent. Applying the reconciliation service's
`reconcile` to its own output returns that output unchanged (`reconcile ∘
reconcile = reconcile` whenever the first pass succeeds), and a second
`PortfolioAggregate.reconcile()` pass leaves the rebuilt asset map — its keys
and all stored assets, hence all balances — unchanged. The symbol-upper-case
hypothesis is the `AssetEntity` constructor's class invariant, which every
entity the code handles satisfies. -/
theorem c4_reconcile_idempotent :
    (∀ (assets l : List AssetEntity), (∀ a ∈ assets, a.symbolUpper) →
      AssetReconciliationService.reconcile assets = .ok l →
      AssetReconciliationService.reconcile l = .ok l) ∧
    (∀ (m r : List (String × AssetEntity)), (∀ kv ∈ m, kv.2.symbolUpper) →
      Portfolio.reconcileMap m = .ok r → Portfolio.reconcileMap r = .ok r) :=
  ⟨AssetReconciliationService.reconcile_idem, Portfolio.reconcileMap_idem⟩

/-! ## Claim C5: partial provider failure -/

/-- The ETH holding the EVM provider reports in the C5 scenario. -/
def c5EthRaw : AssetEntity :=
  { id := "eth-1", symbol := "ETH", type := .token, chain := some .ethereum
    balance := { amount := 1, decimals := 18, formatted := "1.0" }
    metadata := { source := some "evm" } }

/-- The USDC holding the EVM provider reports in the C5 scenario. -/
def c5UsdcRaw : AssetEntity :=
  { id := "usdc-1", symbol := "USDC", type := .token, chain := some .ethereum
    contractAddress := some "0xa0b8"
    balance := { amount := 2, decimals := 6, formatted := "2.0" }
    metadata := { source := some "evm" } }

/-- The C5 environment: the EVM provider succeeds with two assets, the Solana
provider's fetch throws, the cache is empty and the valuator is down. -/
def c5Env : AggEnv :=
  { integrations :=
      [(.evm, { connected := true, connectResult := .ok ()
                fetchAssets := fun _ => .ok [c5EthRaw, c5UsdcRaw] }),
       (.solana, { connected := true, connectResult := .ok ()
                   fetchAssets := fun _ => .error "solana RPC failure" })]
    findById := fun _ => none
    getBatchPrices := fun _ => .error "valuator unavailable" }

/-- The C5 aggregation request over both providers. -/
def c5Options : AggregationOptions :=
  { sources := some [.evm, .solana]
    addresses := [("ethereum", ["0xabc"]), ("solana", ["sol1"])]
    userId := some "u"
    forceRefresh := false }

/-- C5: when exactly one provider (Solana) throws, `aggregatePortfolio` still
completes and returns the union of the surviving provider's assets after
reconciliation, with a sources set that excludes the failed provider — but the
list of domain events it publishes is empty: no `IntegrationSourceFailed` and
no `PortfolioAggregationCompleted` event is ever emitted, because the service
holds no event emitter. -/
theorem c5_partial_failure_no_events :
    ∃ r, PortfolioAggregationService.aggregatePortfolio c5Env c5Options 42 = .ok r ∧
      r.portfolio.sources = [.evm] ∧
      r.portfolio.assets.map (fun kv => kv.2.id) = ["eth-1", "usdc-1"] ∧
      r.fetchCalls = [(.evm, ["0xabc"]), (.solana, ["sol1"])] ∧
      r.events = [] := by
  exact ⟨_, rfl, rfl, rfl, rfl, rfl⟩

/-- C4 witness: the idempotence statement applied to a concrete asset list
(the two C5 assets, which carry distinct asset keys) and to a concrete asset
map. -/
theorem c4_reconcile_idempotent_witness :
    AssetReconciliationService.reconcile [c5EthRaw, c5UsdcRaw] =
      .ok [c5EthRaw, c5UsdcRaw] ∧
    Portfolio.reconcileMap [("ethereum:ETH:token", c5EthRaw)] =
      .ok [("ethereum:ETH:token", c5EthRaw)] := by
  constructor
  · exact c4_reconcile_idempotent.1 [c5EthRaw, c5UsdcRaw] [c5EthRaw, c5UsdcRaw]
      (by decide) (by rfl)
  · exact c4_reconcile_idempotent.2 [("eth-1", c5EthRaw)]
      [("ethereum:ETH:token", c5EthRaw)] (by decide) (by rfl)

/-! ## Claim C9: total portfolio value -/

/-- Modelled from the spec (claim C9): the total value in a currency is the
sum of `balance.amount * price.value` over exactly those assets whose price
currency (as stored upper-cased by `Money`) equals the requested currency;
assets with another price currency or no price contribute nothing. -/
def specTotalValue (p : Portfolio) (currency : String) : ℚ :=
  ((p.assets.map (·.2)).map (fun a =>
    match a.price with
    | some pr => if strToUpper pr.currency = currency then a.balance.amount * pr.value else 0
    | none => 0)).sum

theorem Money.make_ok (x : ℚ) (c : String) (hx : 0 ≤ x) (hc : c.length = 3) :
    Money.make x c = .ok ⟨x, strToUpper c⟩ := by
  unfold Money.make
  rw [if_neg (by exact not_lt.mpr hx), if_neg]
  push_neg
  refine ⟨?_, hc⟩
  intro hce
  rw [hce] at hc
  simp at hc

/-- The contribution of an asset list to the total in a given currency. -/
def specContrib (currency : String) (l : List AssetEntity) : ℚ :=
  (l.map (fun a =>
    match a.price with
    | some pr =>
      if strToUpper pr.currency = currency then a.balance.amount * pr.value else 0
    | none => 0)).sum

theorem Portfolio.getTotalValueLoop_ok (currency : String)
    (hc3 : currency.length = 3) (hcu : strToUpper currency = currency) :
    ∀ (l : List AssetEntity) (t : ℚ), 0 ≤ t →
      (∀ a ∈ l, 0 ≤ a.balance.amount ∧
        ∀ pr ∈ a.price, pr.currency.length = 3 ∧ 0 ≤ pr.value) →
      Portfolio.getTotalValueLoop currency l ⟨t, currency⟩ =
        .ok ⟨t + specContrib currency l, currency⟩ := by
  intro l
  induction l with
  | nil =>
    intro t _ _
    simp [Portfolio.getTotalValueLoop, specContrib]
  | cons a rest ih =>
    intro t ht hinv
    obtain ⟨ha, hpr⟩ := hinv a (by simp)
    have hrest : ∀ x ∈ rest, 0 ≤ x.balance.amount ∧
        ∀ pr ∈ x.price, pr.currency.length = 3 ∧ 0 ≤ pr.value :=
      fun x hx => hinv x (by simp [hx])
    rcases hp : a.price with _ | pr
    · have hgv : a.getValue = .ok none := by
        unfold AssetEntity.getValue
        rw [hp]
      show (a.getValue >>= _) = _
      simp only [hgv, except_ok_bind]
      rw [ih t ht hrest]
      simp [specContrib, hp]
    · obtain ⟨hlen, hval⟩ := hpr pr (by simp [hp])
      have hgv : a.getValue =
          .ok (some ⟨a.balance.amount * pr.value, strToUpper pr.currency⟩) := by
        unfold AssetEntity.getValue
        rw [hp]
        show Except.map some (Money.make (a.balance.amount * pr.value) pr.currency) = _
        rw [Money.make_ok _ _ (mul_nonneg ha hval) hlen]
        rfl
      show (a.getValue >>= _) = _
      simp only [hgv, except_ok_bind]
      by_cases hcur : strToUpper pr.currency = currency
      · have hadd :
            Money.add ⟨t, currency⟩ ⟨a.balance.amount * pr.value, strToUpper pr.currency⟩ =
              .ok ⟨t + a.balance.amount * pr.value, currency⟩ := by
          unfold Money.add
          rw [if_neg (by simp [hcur]),
            Money.make_ok _ _ (add_nonneg ht (mul_nonneg ha hval)) hc3, hcu]
        rw [if_pos hcur]
        show (Money.add _ _ >>= _) = _
        simp only [hadd, except_ok_bind]
        rw [ih _ (add_nonneg ht (mul_nonneg ha hval)) hrest]
        simp [specContrib, hp, hcur, add_assoc]
      · rw [if_neg hcur]
        rw [ih t ht hrest]
        simp [specContrib, hp, hcur]

/-- C9 (amended): for every 3-letter upper-case currency argument and every
portfolio whose assets have non-negative amounts and whose prices carry
3-letter currency codes and non-negative values, `getTotalValue` returns —
without throwing — the sum of `balance.amount * price.value` over exactly
those assets whose price currency (upper-cased, as `Money` stores it) equals
the requested currency; assets with another price currency or no price are
skipped. -/
theorem c9_get_total_value (p : Portfolio) (currency : String)
    (hc3 : currency.length = 3)
    (hcu : strToUpper currency = currency)
    (hinv : ∀ kv ∈ p.assets, 0 ≤ kv.2.balance.amount ∧
      ∀ pr ∈ kv.2.price, pr.currency.length = 3 ∧ 0 ≤ pr.value) :
    Portfolio.getTotalValue p currency =
      .ok ⟨specTotalValue p currency, currency⟩ := by
  unfold Portfolio.getTotalValue
  have h0 : Money.make 0 currency = .ok ⟨0, currency⟩ := by
    rw [Money.make_ok 0 currency le_rfl hc3, hcu]
  show (Money.make 0 currency >>= _) = _
  simp only [h0, except_ok_bind]
  rw [Portfolio.getTotalValueLoop_ok currency hc3 hcu _ 0 le_rfl
    (fun a ha => by
      rcases List.mem_map.mp ha with ⟨kv, hkv, hkva⟩
      rw [← hkva]
      exact hinv kv hkv)]
  rw [zero_add]
  rfl

/-- A portfolio holding one ETH asset that satisfies every stated invariant:
non-empty upper-case symbol, non-negative amount, a price with a 3-letter
currency code and non-negative value. -/
def c9Portfolio : Portfolio :=
  { id := "p", lastUpdated := 0
    assets := [("eth",
      { id := "eth", symbol := "ETH", type := .token, chain := some .ethereum
        balance := { amount := 1, decimals := 18, formatted := "1" }
        price := some { value := 5, currency := "USD", timestamp := 0 } })] }

/-- C9 counterexample: on a portfolio whose assets satisfy the stated
invariants, `getTotalValue` invoked with the currency argument `"EURO"`
throws (the initial `Money(0, currency)` construction rejects the 4-letter
code), contradicting the claim that the call never throws for every currency
argument. -/
theorem c9_get_total_value_throws :
    (∀ kv ∈ c9Portfolio.assets, 0 ≤ kv.2.balance.amount ∧
      ∀ pr ∈ kv.2.price, pr.currency.length = 3 ∧ 0 ≤ pr.value) ∧
    ∃ e, Portfolio.getTotalValue c9Portfolio "EURO" = .error e := by
  constructor
  · intro kv hkv
    simp only [c9Portfolio, List.mem_singleton] at hkv
    subst hkv
    refine ⟨by decide, ?_⟩
    intro pr hpr
    simp only [Option.mem_def, Option.some_inj] at hpr
    subst hpr
    exact ⟨by decide, by decide⟩
  · exact ⟨"Currency must be a 3-letter code", by with_unfolding_all rfl⟩

/-- C9 witness: the amended statement applied to `c9Portfolio` with the
currency argument `"USD"`. -/
theorem c9_get_total_value_witness :
    Portfolio.getTotalValue c9Portfolio "USD" =
      .ok ⟨specTotalValue c9Portfolio "USD", "USD"⟩ :=
  c9_get_total_value c9Portfolio "USD" (by decide) (by decide)
    (fun kv hkv => by
      simp only [c9Portfolio, List.mem_singleton] at hkv
      subst hkv
      refine ⟨by decide, ?_⟩
      intro pr hpr
      simp only [Option.mem_def, Option.some_inj] at hpr
      subst hpr
      exact ⟨by decide, by decide⟩)

/-! ## Claim C8: cache freshness -/

/-- C8: with `forceRefresh = false` and a repository hit whose age is strictly
below the 300 000 ms cache timeout, `aggregatePortfolio` returns the cached
portfolio unchanged, issues no provider fetch and publishes no event. -/
theorem c8_cache_hit (env : AggEnv) (options : AggregationOptions) (now : ℕ)
    (cached : Portfolio)
    (hforce : options.forceRefresh = false)
    (hfound : env.findById
      (PortfolioAggregationService.generatePortfolioId options.userId now) = some cached)
    (hfresh : (now : ℤ) - (cached.lastUpdated : ℤ) < 300000) :
    PortfolioAggregationService.aggregatePortfolio env options now =
      .ok ⟨cached, [], []⟩ := by
  have hvalid : PortfolioAggregationService.isCacheValid now cached = true := by
    unfold PortfolioAggregationService.isCacheValid
    simpa using hfresh
  unfold PortfolioAggregationService.aggregatePortfolio
  simp [hforce, hfound, hvalid]

/-- The portfolio cached in the C8 witness scenario. -/
def c8Cached : Portfolio :=
  { id := "portfolio_u", userId := some "u", lastUpdated := 0 }

/-- The environment of the C8 witness scenario: the repository holds
`c8Cached`. -/
def c8Env : AggEnv :=
  { integrations := []
    findById := fun s => if s = "portfolio_u" then some c8Cached else none
    getBatchPrices := fun _ => .error "unavailable" }

/-- C8 witness: a call at `now = 60000` with `forceRefresh = false` returns
the snapshot cached at `lastUpdated = 0` and invokes no provider. -/
theorem c8_cache_hit_witness :
    PortfolioAggregationService.aggregatePortfolio c8Env
      { addresses := [], userId := some "u", forceRefresh := false } 60000 =
      .ok ⟨c8Cached, [], []⟩ :=
  c8_cache_hit c8Env _ 60000 c8Cached rfl (by decide) (by decide)

/-! ## Claim C10: refreshPortfolio rebuilds only empty address lists -/

namespace PortfolioAggregationService

/-- Every address list `extractAddresses` builds is empty: the loop only ever
stores `addresses.get(chain) || []` and never pushes an address. -/
theorem extractAddresses_values_nil (p : Portfolio) :
    ∀ kv ∈ extractAddresses p, kv.2 = [] := by
  unfold extractAddresses
  generalize (p.assets.map (·.2)) = assets
  suffices h : ∀ (l : List AssetEntity) (acc : List (String × List String)),
      (∀ kv ∈ acc, kv.2 = []) →
      ∀ kv ∈ l.foldl (fun addresses asset =>
        match asset.chain with
        | some chain => mapSet addresses chain.str ((mapGet addresses chain.str).getD [])
        | none => addresses) acc, kv.2 = [] by
    intro kv hkv
    exact h assets [] (by simp) kv hkv
  intro l
  induction l with
  | nil => intro acc hacc; simpa using hacc
  | cons a rest ih =>
    intro acc hacc
    simp only [List.foldl_cons]
    apply ih
    cases ha : a.chain with
    | none => simpa [ha] using hacc
    | some c =>
      simp only [ha]
      intro kv hkv
      rcases mapSet_mem _ _ _ _ hkv with hm | hm
      · exact hacc kv hm
      · rw [hm]
        rcases hg : mapGet acc c.str with _ | v
        · rfl
        · simpa using hacc _ (mapGet_mem _ _ _ hg)

theorem foldl_append_nil (l : List (String × List String))
    (hl : ∀ kv ∈ l, kv.2 = []) :
    ∀ acc : List String, l.foldl (fun acc kv => acc ++ kv.2) acc = acc := by
  induction l with
  | nil => intro acc; rfl
  | cons a rest ih =>
    intro acc
    simp only [List.foldl_cons]
    rw [hl a (by simp), List.append_nil]
    exact ih (fun kv hkv => hl kv (by simp [hkv])) acc

/-- On an address map whose lists are all empty, the EVM and Solana relevant
address sets are empty. -/
theorem getRelevantAddresses_empty (src : IntegrationSource)
    (addrs : List (String × List String))
    (hsrc : src = IntegrationSource.evm ∨ src = IntegrationSource.solana)
    (hnil : ∀ kv ∈ addrs, kv.2 = []) :
    getRelevantAddresses src addrs = [] := by
  rcases hsrc with h | h <;> subst h
  · unfold getRelevantAddresses
    rw [foldl_append_nil _ (fun kv hkv => hnil kv (List.mem_of_mem_filter hkv)) []]
    rfl
  · unfold getRelevantAddresses
    rcases hg : mapGet addrs "solana" with _ | v
    · rfl
    · have : v = [] := hnil _ (mapGet_mem _ _ _ hg)
      rw [this]
      rfl

/-- With an empty relevant address set, `fetchFromSource` never calls the
provider's `fetchAssets` and can only contribute an empty asset list. -/
theorem fetchFromSource_empty_relevant (env : AggEnv) (src : IntegrationSource)
    (addrs : List (String × List String))
    (hrel : getRelevantAddresses src addrs = []) :
    (fetchFromSource env src addrs).2 = [] ∧
    ∀ assets, (fetchFromSource env src addrs).1 = .ok assets → assets = [] := by
  unfold fetchFromSource
  rcases hf : env.integrations.find? (fun kv => kv.1 = src) with _ | ⟨s, integration⟩ <;>
    simp only [hf]
  · refine ⟨by trivial, fun assets h => by simp at h⟩
  · rcases hc : (if integration.connected then Except.ok () else integration.connectResult)
      with e | u <;> simp only [hc]
    · refine ⟨by trivial, fun assets h => by simp at h⟩
    · rw [hrel]
      simp only [if_pos rfl]
      refine ⟨by trivial, fun assets h => by simpa using h.symm⟩

end PortfolioAggregationService

/-- C10: `refreshPortfolio` re-aggregates with `forceRefresh = true` over an
address map extracted from the portfolio's assets in which every chain key
maps to an empty list; consequently the address-based EVM and Solana providers
receive empty relevant address sets, are never asked to fetch, and contribute
no assets, while the brokerage provider receives the sentinel `"default"`. -/
theorem c10_refresh_empty_addresses (env : AggEnv) (portfolioId : String)
    (now : ℕ) (existing : Portfolio)
    (hfound : env.findById portfolioId = some existing) :
    PortfolioAggregationService.refreshPortfolio env portfolioId now =
      PortfolioAggregationService.aggregatePortfolio env
        { sources := some existing.sources
          addresses := PortfolioAggregationService.extractAddresses existing
          userId := existing.userId
          forceRefresh := true } now ∧
    (∀ kv ∈ PortfolioAggregationService.extractAddresses existing, kv.2 = []) ∧
    (∀ src, (src = IntegrationSource.evm ∨ src = IntegrationSource.solana) →
      PortfolioAggregationService.getRelevantAddresses src
        (PortfolioAggregationService.extractAddresses existing) = [] ∧
      (PortfolioAggregationService.fetchFromSource env src
        (PortfolioAggregationService.extractAddresses existing)).2 = [] ∧
      (∀ assets, (PortfolioAggregationService.fetchFromSource env src
        (PortfolioAggregationService.extractAddresses existing)).1 = .ok assets →
        assets = [])) ∧
    PortfolioAggregationService.getRelevantAddresses .robinhood
      (PortfolioAggregationService.extractAddresses existing) = ["default"] := by
  have hnil := PortfolioAggregationService.extractAddresses_values_nil existing
  refine ⟨?_, hnil, ?_, ?_⟩
  · unfold PortfolioAggregationService.refreshPortfolio
    rw [hfound]
  · intro src hsrc
    have hrel := PortfolioAggregationService.getRelevantAddresses_empty src _ hsrc hnil
    have hfetch := PortfolioAggregationService.fetchFromSource_empty_relevant env src _ hrel
    exact ⟨hrel, hfetch.1, hfetch.2⟩
  · rfl

/-- The persisted portfolio of the C10 witness scenario: one ETH asset on
`ethereum` fetched from the EVM provider. -/
def c10Existing : Portfolio :=
  { id := "portfolio_u", userId := some "u", lastUpdated := 0
    sources := [.evm]
    assets := [("eth-1",
      { id := "eth-1", symbol := "ETH", type := .token, chain := some .ethereum
        balance := { amount := 1, decimals := 18, formatted := "1" } })] }

/-- The environment of the C10 witness scenario. -/
def c10Env : AggEnv :=
  { integrations := []
    findById := fun s => if s = "portfolio_u" then some c10Existing else none
    getBatchPrices := fun _ => .error "unavailable" }

/-- C10 witness: the theorem instantiated at the concrete persisted
portfolio. -/
theorem c10_refresh_empty_addresses_witness :
    PortfolioAggregationService.refreshPortfolio c10Env "portfolio_u" 7 =
      PortfolioAggregationService.aggregatePortfolio c10Env
        { sources := some c10Existing.sources
          addresses := PortfolioAggregationService.extractAddresses c10Existing
          userId := c10Existing.userId
          forceRefresh := true } 7 ∧
    PortfolioAggregationService.getRelevantAddresses .evm
      (PortfolioAggregationService.extractAddresses c10Existing) = [] := by
  have h := c10_refresh_empty_addresses c10Env "portfolio_u" 7 c10Existing (by decide)
  exact ⟨h.1, (h.2.2.1 .evm (Or.inl rfl)).1⟩

/-- C6 witness: the scenario of §8 (`failureThreshold = 3`,
`recoveryTimeout = 1000`, `halfOpenRetries = 2`) instantiates every clause. -/
theorem c6_circuit_breaker_transitions_witness :
    ((∀ (b : CircuitBreaker) (times : List ℕ), b.state = .closed → b.failures = 0 →
      times.length = 3 →
      (CircuitBreaker.recordFailures ⟨3, 1000, 2⟩ times b).state = .«open») ∧
    (∀ (b : CircuitBreaker) (t now : ℕ), b.state = .«open» →
      b.nextRetryTime = some t → t ≤ now →
      CircuitBreaker.getState now b =
        (.halfOpen, { b with state := .halfOpen, halfOpenAttempts := 0 })) ∧
    (∀ (b : CircuitBreaker) (times : List ℕ), b.state = .halfOpen →
      b.halfOpenAttempts = 0 → times.length = 2 →
      (CircuitBreaker.recordSuccesses ⟨3, 1000, 2⟩ times b).state = .closed ∧
        (CircuitBreaker.recordSuccesses ⟨3, 1000, 2⟩ times b).failures = 0) ∧
    (∀ (b : CircuitBreaker) (now : ℕ), b.state = .halfOpen →
      (CircuitBreaker.recordFailure ⟨3, 1000, 2⟩ now b).state = .«open» ∧
        (CircuitBreaker.recordFailure ⟨3, 1000, 2⟩ now b).nextRetryTime =
          some (now + 1000))) ∧
    ((CircuitBreaker.recordFailures ⟨3, 1000, 2⟩ [10, 20, 30] {}).state = .«open») := by
  constructor
  · exact c6_circuit_breaker_transitions ⟨3, 1000, 2⟩ (by decide) (by decide)
  · decide

end PortfolioAgg
